import Mathlib

/-!
Shallow embedding of the reconciliation core of the
`terraform-provider-superset` repository (Go), together with proofs about
its behaviour.  Each definition mirrors one Go function or type of the
repository; theorems at the end of the file settle the behavioural claims.
-/

namespace Superset

/-! ## Terraform plugin-framework value embedding

The Go code manipulates `types.String`, `types.Int64`, `types.Bool` from the
terraform-plugin-framework.  Every such value is either null or carries a
value; `ValueString`/`ValueInt64`/`ValueBool` return the zero value on null.
We embed them as `Option`. -/

/-- Embeds `types.String`: a nullable string. -/
abbrev TString := Option String

/-- Embeds `types.Int64`: a nullable 64-bit integer (modelled as `Int`). -/
abbrev TInt64 := Option Int

/-- Embeds `types.Bool`: a nullable boolean. -/
abbrev TBool := Option Bool

/-- Embeds `types.String.ValueString()`: the value, or `""` when null. -/
def TString.valueString (s : TString) : String := s.getD ""

/-- Embeds `types.String.IsNull()`. -/
def TString.isNull (s : TString) : Bool := s.isNone

/-- Embeds `types.Int64.ValueInt64()`: the value, or `0` when null. -/
def TInt64.valueInt64 (i : TInt64) : Int := i.getD 0

/-- Embeds the oapi-codegen `nullable.Nullable[T]` wrapper used by the
generated client types: either unspecified/null or a specified value.
`IsSpecified`/`IsNull` and `MustGet` map to `Option.isSome`/`Option.isNone`
and `Option.getD`. -/
abbrev GoNullable (α : Type) := Option α

/-! ## UUIDs (`github.com/google/uuid`)

The provider depends on the google/uuid library for `uuid.UUID`,
`uuid.Parse`, `uuid.New` and `UUID.String`.  A UUID is 16 bytes. -/

/-- A Go `uuid.UUID`: sixteen bytes (each `< 256`; the bound is maintained
by the operations, not by the type). -/
structure GoUuid where
  bytes : List Nat
deriving DecidableEq, Repr

/-- The all-zero nil UUID. -/
def GoUuid.nil : GoUuid := ⟨List.replicate 16 0⟩

/-- Lowercase hex digit table used by Go's formatters. -/
def hexDigitChar (n : Nat) : Char :=
  if n < 10 then Char.ofNat (48 + n) else Char.ofNat (87 + n)

/-- Formats one byte as two lowercase hex digits. -/
def byteToHexChars (b : Nat) : List Char :=
  [hexDigitChar (b / 16 % 16), hexDigitChar (b % 16)]

/-- Embeds `uuid.UUID.String()`: `xxxxxxxx-xxxx-xxxx-xxxx-xxxxxxxxxxxx`,
lowercase hex with hyphens after bytes 4, 6, 8 and 10. -/
def GoUuid.toGoString (u : GoUuid) : String :=
  let hx := fun (l : List Nat) => (l.map byteToHexChars).flatten
  String.mk (hx (u.bytes.take 4) ++ '-' :: hx ((u.bytes.drop 4).take 2)
    ++ '-' :: hx ((u.bytes.drop 6).take 2) ++ '-' :: hx ((u.bytes.drop 8).take 2)
    ++ '-' :: hx (u.bytes.drop 10))

/-- Value of one hex digit character, accepting the same characters as
google/uuid's `xvalues` table (`0-9`, `a-f`, `A-F`). -/
def hexVal (c : Char) : Option Nat :=
  if '0' ≤ c ∧ c ≤ '9' then some (c.toNat - '0'.toNat)
  else if 'a' ≤ c ∧ c ≤ 'f' then some (c.toNat - 'a'.toNat + 10)
  else if 'A' ≤ c ∧ c ≤ 'F' then some (c.toNat - 'A'.toNat + 10)
  else none

/-- Embeds google/uuid's `xtob`: two hex digits to one byte. -/
def xtob (c1 c2 : Char) : Option Nat := do
  let a ← hexVal c1
  let b ← hexVal c2
  pure (a * 16 + b)

/-- Reads the canonical 36-character body `xxxxxxxx-xxxx-xxxx-xxxx-xxxxxxxxxxxx`
(hyphens at indices 8, 13, 18, 23; hex-digit pairs at the offsets Go lists). -/
def parseCanonicalBody (s : List Char) : Option GoUuid := do
  let at_ := fun (i : Nat) => s.getD i ' '
  if at_ 8 = '-' ∧ at_ 13 = '-' ∧ at_ 18 = '-' ∧ at_ 23 = '-' then
    let offsets := [0, 2, 4, 6, 9, 11, 14, 16, 19, 21, 24, 26, 28, 30, 32, 34]
    let bytes ← offsets.mapM (fun x => xtob (at_ x) (at_ (x + 1)))
    pure ⟨bytes⟩
  else none

/-- Reads 32 hex characters with no hyphens. -/
def parseHexOnly (s : List Char) : Option GoUuid := do
  let bytes ← (List.range 16).mapM (fun i => xtob (s.getD (2 * i) ' ') (s.getD (2 * i + 1) ' '))
  pure ⟨bytes⟩

/-- Embeds `uuid.Parse` of the google/uuid library (an external dependency
of the repository): accepts the canonical 36-character form, the
`urn:uuid:`-prefixed form (case-insensitive prefix), the 38-character
braced form (only the length and the first character are stripped, exactly
as in the library), and the 32-character hex-only form.  Inputs are treated
as ASCII character sequences. -/
def goUuidParse (str : String) : Except String GoUuid :=
  let s := str.data
  match s.length with
  | 36 =>
    match parseCanonicalBody s with
    | some u => .ok u
    | none => .error "invalid UUID format"
  | 45 =>
    if (s.take 9).map Char.toLower = "urn:uuid:".data then
      match parseCanonicalBody (s.drop 9) with
      | some u => .ok u
      | none => .error "invalid UUID format"
    else .error "invalid urn prefix"
  | 38 =>
    match parseCanonicalBody (s.drop 1) with
    | some u => .ok u
    | none => .error "invalid UUID format"
  | 32 =>
    match parseHexOnly s with
    | some u => .ok u
    | none => .error "invalid UUID format"
  | _ => .error ("invalid UUID length: " ++ toString s.length)

/-! ## Generated client types used by the dataset models

These are the shapes of the generated Superset REST client structs that the
provider code consumes (`internal/client`); only the fields the embedded
functions touch are carried. -/

/-- Embeds `client.DatasetRestApiGetTableColumn` (the server's view of one
dataset column), restricted to the fields the reconciliation code reads. -/
structure DatasetRestApiGetTableColumn where
  Id : Int
  ColumnName : String
  type_ : GoNullable String
  Uuid : GoNullable GoUuid
deriving DecidableEq, Repr

/-- Embeds `client.DatasetRestApiGetSqlMetric` (the server's view of one
dataset metric), restricted to the fields the reconciliation code reads. -/
structure DatasetRestApiGetSqlMetric where
  Id : Int
  MetricName : String
  Uuid : GoNullable GoUuid
deriving DecidableEq, Repr

/-! ## Dataset columns model (`internal/provider/model_dataset_columns.go`) -/

/-- Embeds the provider's `datasetColumn` configuration model. -/
structure datasetColumn where
  Id : TInt64
  AdvancedDataType : TString
  ColumnName : TString
  Description : TString
  Expression : TString
  Extra : TString
  Filterable : TBool
  Groupby : TBool
  IsActive : TBool
  IsDttm : TBool
  type_ : TString
  VerboseName : TString
deriving DecidableEq, Repr

/-- Embeds the provider's `datasetColumnsBaseModel`. -/
structure datasetColumnsBaseModel where
  DatasetId : TInt64
  DatasetName : TString
  Columns : List datasetColumn
deriving DecidableEq, Repr

/-- The lookup into the Go map `mapColumnNameToColumn` built by inserting
every server column keyed by `ColumnName` (later duplicates overwrite
earlier ones, as for a Go map filled by iteration). -/
def mapColumnNameToColumn (columns : List DatasetRestApiGetTableColumn)
    (name : String) : Option DatasetRestApiGetTableColumn :=
  columns.foldl (fun acc c => if c.ColumnName = name then some c else acc) none

/-- Embeds `datasetColumnsBaseModel.resovleColumns` (sic): for each declared
column, when a server column with the same `ColumnName` exists, copy its id
forward and copy its type forward when the server type is non-null and
non-empty; otherwise pass the declared column through unchanged. -/
def datasetColumnsBaseModel.resovleColumns (model : datasetColumnsBaseModel)
    (columns : List DatasetRestApiGetTableColumn) : List datasetColumn :=
  model.Columns.map (fun column =>
    match mapColumnNameToColumn columns column.ColumnName.valueString with
    | some c =>
      let column := { column with Id := some c.Id }
      if ¬c.type_.isNone ∧ c.type_.getD "" ≠ "" then
        { column with type_ := some (c.type_.getD "") }
      else column
    | none => column)

/-! ## Wire folders (`client.Folder`, `client.FolderType`)

The generated client's `Folder` type is a recursive tree node; `FolderType`
is a string enum with the three constants below. -/

/-- Embeds `client.FolderType` (a Go string type). -/
abbrev FolderType := String

/-- Embeds `client.FolderTypeFolder`. -/
def FolderTypeFolder : FolderType := "folder"

/-- Embeds `client.FolderTypeColumn`. -/
def FolderTypeColumn : FolderType := "column"

/-- Embeds `client.FolderTypeMetric`. -/
def FolderTypeMetric : FolderType := "metric"

/-- Embeds `client.Folder`: a wire folder tree node with name, type tag,
optional description, uuid and a nullable children list. -/
inductive Folder : Type where
  | mk (Name : String) (type_ : FolderType) (Description : Option String)
    (Uuid : GoUuid) (Children : Option (List Folder)) : Folder
deriving Repr

/-- Projection: the wire folder's name. -/
def Folder.Name : Folder → String
  | .mk n _ _ _ _ => n

/-- Projection: the wire folder's type tag. -/
def Folder.type_ : Folder → FolderType
  | .mk _ t _ _ _ => t

/-- Projection: the wire folder's optional description. -/
def Folder.Description : Folder → GoNullable String
  | .mk _ _ d _ _ => d

/-- Projection: the wire folder's uuid. -/
def Folder.Uuid : Folder → GoUuid
  | .mk _ _ _ u _ => u

/-- Projection: the wire folder's nullable children list. -/
def Folder.Children : Folder → GoNullable (List Folder)
  | .mk _ _ _ _ c => c

/-- Embeds `client.DatasetRestApiGet` (the full dataset GET payload),
restricted to the fields the folder/metric/column models read.  The Go code
receives `Folders` as a nullable untyped value and decodes it to
`[]client.Folder` through `mapToFolders` (a JSON marshal/unmarshal round
trip); here the field carries the already-decoded folder list, so
`mapToFolders` is the identity on it. -/
structure DatasetRestApiGet where
  Id : Int
  TableName : String
  Folders : GoNullable (List Folder)
  Columns : List DatasetRestApiGetTableColumn
  Metrics : List DatasetRestApiGetSqlMetric

/-! ## Dataset folder model (`internal/provider/model_dataset_folder.go`) -/

/-- Embeds the provider's `datasetFolderChildModel`. -/
structure datasetFolderChildModel where
  Name : TString
  Description : TString
  type_ : TString
  Uuid : TString
deriving DecidableEq, Repr

/-- Embeds the provider's `datasetFolderModel`. -/
structure datasetFolderModel where
  Name : TString
  Description : TString
  type_ : TString
  Children : List datasetFolderChildModel
  Uuid : TString
deriving DecidableEq, Repr

/-- Embeds the provider's `datasetFolderBaseModel`. -/
structure datasetFolderBaseModel where
  DatasetId : TInt64
  DatasetName : TString
  Folders : List datasetFolderModel
deriving DecidableEq, Repr

/-- The Go zero value of `datasetFolderModel` (`var folderModel datasetFolderModel`). -/
def emptyFolderModel : datasetFolderModel :=
  { Name := none, Description := none, type_ := none, Children := [], Uuid := none }

/-- The shape of every Go for-loop that maps a slice while propagating the
first error: an explicitly recursive effectful map over `Except`. -/
def mapExceptList {α β : Type} (f : α → Except String β) : List α → Except String (List β)
  | [] => .ok []
  | a :: rest => do
    let b ← f a
    let bs ← mapExceptList f rest
    pure (b :: bs)

/-- Embeds the child loop body of `datasetFolderModel.updateState`: maps
one wire child into the configuration shape, rejecting an empty or all-zero
uuid; the child's own subtree is never visited. -/
def datasetFolderChildModel.fromWire (child : Folder) :
    Except String datasetFolderChildModel :=
  let childModel : datasetFolderChildModel :=
    { Name := some child.Name, type_ := some child.type_,
      Description :=
        if child.Description.isSome ∧ child.Description.getD "" ≠ "" then
          some (child.Description.getD "")
        else none,
      Uuid := none }
  let u := child.Uuid.toGoString
  if u = "" ∨ u = "00000000-0000-0000-0000-000000000000" then
    .error ("missing uuid for child " ++ child.Name ++ " in folders response")
  else
    .ok { childModel with Uuid := some child.Uuid.toGoString }

/-- Embeds `datasetFolderModel.updateState`: maps one wire folder (already
known to be a root) into the configuration shape.  Errors when the node's
type is not `folder` and when any direct child carries an empty or all-zero
uuid. -/
def datasetFolderModel.updateState (model : datasetFolderModel) (d : Folder) :
    Except String datasetFolderModel := do
  let model := { model with Name := some d.Name }
  let model :=
    if d.Description.isSome ∧ d.Description.getD "" ≠ "" then
      { model with Description := some (d.Description.getD "") }
    else model
  if d.type_ ≠ FolderTypeFolder then
    .error ("unexpected folder type in dataset folders response: " ++ d.type_ ++
      ". Nested folders are not supported.")
  else
    let model := { model with type_ := some d.type_, Uuid := some d.Uuid.toGoString }
    if ¬d.Children.isNone ∧ (d.Children.getD []).length > 0 then do
      let children ← mapExceptList datasetFolderChildModel.fromWire (d.Children.getD [])
      pure { model with Children := children }
    else
      pure model

/-- Embeds the root loop body of `datasetFolderBaseModel.updateState`: maps
one wire root folder into the configuration shape, rejecting a root whose
type is not `folder`. -/
def datasetFolderModel.fromWireRoot (folder : Folder) :
    Except String datasetFolderModel := do
  let folderModel := { emptyFolderModel with Name := some folder.Name }
  let folderModel :=
    if folder.Description.isSome ∧ folder.Description.getD "" ≠ "" then
      { folderModel with Description := some (folder.Description.getD "") }
    else folderModel
  if folder.type_ ≠ FolderTypeFolder then
    Except.error ("unexpected folder type in dataset folders response: " ++
      folder.type_ ++ ". Root level folders are expected to be of type 'folder'.")
  else do
    let folderModel := { folderModel with type_ := some folder.type_ }
    let folderModel ← folderModel.updateState folder
    pure { folderModel with Uuid := some folder.Uuid.toGoString }

/-- Embeds `datasetFolderBaseModel.updateState`: maps the dataset's wire
folder list back into the configuration shape. -/
def datasetFolderBaseModel.updateState (model : datasetFolderBaseModel)
    (d : DatasetRestApiGet) : Except String datasetFolderBaseModel := do
  let model := { model with DatasetId := some d.Id, DatasetName := some d.TableName }
  match d.Folders with
  | none => pure model
  | some typedFolders => do
    let folders ← mapExceptList datasetFolderModel.fromWireRoot typedFolders
    pure { model with Folders := folders }

/-- Embeds `findColumnByName`: first server column with the given name. -/
def findColumnByName (columns : List DatasetRestApiGetTableColumn) (name : String) :
    Option DatasetRestApiGetTableColumn :=
  columns.find? (fun column => column.ColumnName = name)

/-- Embeds `findMetricByName`: first server metric with the given name. -/
def findMetricByName (metrics : List DatasetRestApiGetSqlMetric) (name : String) :
    Option DatasetRestApiGetSqlMetric :=
  metrics.find? (fun metric => metric.MetricName = name)

/-- Embeds `datasetFolderModel.resolveColumns`: re-pins each child's uuid to
the dataset's authoritative column/metric uuid, matched by name, when the
matched entity carries a specified uuid; every other field is untouched. -/
def datasetFolderModel.resolveColumns (model : datasetFolderModel)
    (d : DatasetRestApiGet) : datasetFolderModel :=
  { model with Children := model.Children.map (fun child =>
      if child.type_.valueString = FolderTypeColumn then
        match findColumnByName d.Columns child.Name.valueString with
        | some column =>
          if column.Uuid.isSome then
            { child with Uuid := some ((column.Uuid.getD GoUuid.nil).toGoString) }
          else child
        | none => child
      else if child.type_.valueString = FolderTypeMetric then
        match findMetricByName d.Metrics child.Name.valueString with
        | some metric =>
          if metric.Uuid.isSome then
            { child with Uuid := some ((metric.Uuid.getD GoUuid.nil).toGoString) }
          else child
        | none => child
      else child) }

/-- Embeds `datasetFolderBaseModel.resolveColumns`: applies the child-level
resolution to every folder of type `folder`. -/
def datasetFolderBaseModel.resolveColumns (model : datasetFolderBaseModel)
    (d : DatasetRestApiGet) : datasetFolderBaseModel :=
  { model with Folders := model.Folders.map (fun folder =>
      if folder.type_.valueString = FolderTypeFolder then folder.resolveColumns d
      else folder) }

/-- Embeds the children loop of `datasetFolderModel.toFolders`.  `uuid.New`
(a fresh random UUID) is embedded as drawing `supply k` from an abstract
supply and advancing the counter `k`. -/
def datasetFolderModel.toFoldersAux (supply : Nat → GoUuid) :
    List datasetFolderChildModel → Nat → Except String (List Folder × Nat)
  | [], k => .ok ([], k)
  | child :: rest, k => do
    let (u, k) ←
      if child.Uuid.isNull ∨ child.Uuid.valueString = "" ∨
          child.Uuid.valueString = "00000000-0000-0000-0000-000000000000" then
        pure (supply k, k + 1)
      else
        match goUuidParse child.Uuid.valueString with
        | .ok uu => pure (uu, k)
        | .error e => Except.error e
    let desc : GoNullable String :=
      if ¬child.Description.isNull ∧ child.Description.valueString ≠ "" then
        some child.Description.valueString
      else none
    let folder := Folder.mk child.Name.valueString child.type_.valueString desc u (some [])
    let (rest', k) ← datasetFolderModel.toFoldersAux supply rest k
    pure (folder :: rest', k)

/-- Embeds `datasetFolderModel.toFolders`: flattens the declared children of
one folder to wire shape. -/
def datasetFolderModel.toFolders (model : datasetFolderModel)
    (supply : Nat → GoUuid) (k : Nat) : Except String (List Folder × Nat) :=
  datasetFolderModel.toFoldersAux supply model.Children k

/-- Embeds the folder loop of `datasetFolderBaseModel.toFolders`. -/
def datasetFolderBaseModel.toFoldersAux (supply : Nat → GoUuid) :
    List datasetFolderModel → Nat → Except String (List Folder × Nat)
  | [], k => .ok ([], k)
  | folderModel :: rest, k => do
    let (u, k) ←
      if folderModel.Uuid.isNull ∨ folderModel.Uuid.valueString = "" ∨
          folderModel.Uuid.valueString = "00000000-0000-0000-0000-000000000000" then
        pure (supply k, k + 1)
      else
        match goUuidParse folderModel.Uuid.valueString with
        | .ok uu => pure (uu, k)
        | .error e => Except.error e
    let desc : GoNullable String :=
      if ¬folderModel.Description.isNull ∧ folderModel.Description.valueString ≠ "" then
        some folderModel.Description.valueString
      else none
    let (children, k) ← folderModel.toFolders supply k
    let kids : GoNullable (List Folder) :=
      if children.length > 0 then some children else some []
    let folder := Folder.mk folderModel.Name.valueString folderModel.type_.valueString
      desc u kids
    let (rest', k) ← datasetFolderBaseModel.toFoldersAux supply rest k
    pure (folder :: rest', k)

/-- Embeds `datasetFolderBaseModel.toFolders`: flattens the whole declared
folder list to wire shape.  No type check is performed here; the only error
source is `uuid.Parse`. -/
def datasetFolderBaseModel.toFolders (model : datasetFolderBaseModel)
    (supply : Nat → GoUuid) (k : Nat) : Except String (List Folder × Nat) :=
  datasetFolderBaseModel.toFoldersAux supply model.Folders k

/-! ## Go JSON string quoting (`encoding/json`)

`datasetMetric.toExtra` serializes a fixed two-field struct with
`json.Marshal`; `parseCertification` reads it back with `json.Unmarshal`.
The encoder's string quoting (HTML-escaping enabled, Go's default) and the
decoder's unquoting are embedded below. -/

/-- One character of Go `encoding/json` string output: `"` `\` and the
common control characters get two-character escapes, other control
characters and the HTML-sensitive `<` `>` `&` get `\u00xx`-style escapes,
U+2028/U+2029 get `\u202x` escapes, and everything else is emitted as is. -/
def goJsonQuoteChar (c : Char) : List Char :=
  if c = '"' then ['\\', '"']
  else if c = '\\' then ['\\', '\\']
  else if c = '\n' then ['\\', 'n']
  else if c = '\r' then ['\\', 'r']
  else if c = '\t' then ['\\', 't']
  else if c = '<' ∨ c = '>' ∨ c = '&' ∨ c.toNat < 32 then
    ['\\', 'u', '0', '0', hexDigitChar (c.toNat / 16), hexDigitChar (c.toNat % 16)]
  else if c.toNat = 0x2028 ∨ c.toNat = 0x2029 then
    ['\\', 'u', '2', '0', '2', hexDigitChar (c.toNat % 16)]
  else [c]

/-- Go `encoding/json` quoting of a whole string body (without the
surrounding quotes). -/
def goJsonQuoteChars (s : List Char) : List Char :=
  (s.map goJsonQuoteChar).flatten

/-- A Go JSON string literal: quoted and escaped. -/
def goJsonQuoteString (s : String) : String :=
  String.mk ('"' :: goJsonQuoteChars s.data ++ ['"'])

/-- Go `encoding/json` string unquoting, already past the opening quote:
reads characters up to the closing quote, resolving the two-character
escapes, `\uXXXX` escapes (an unpaired surrogate becomes U+FFFD; surrogate
pairs are not combined, the encoder side never emits them) and rejecting
raw control characters; returns the decoded body and the remaining input. -/
def goJsonUnquoteChars : List Char → Option (List Char × List Char)
  | [] => none
  | c :: rest =>
    if c = '"' then some ([], rest)
    else if c = '\\' then
      match rest with
      | 'u' :: h1 :: h2 :: h3 :: h4 :: rest2 =>
        match hexVal h1, hexVal h2, hexVal h3, hexVal h4 with
        | some a, some b, some x, some d =>
          let n := ((a * 16 + b) * 16 + x) * 16 + d
          let ch := if 0xD800 ≤ n ∧ n < 0xE000 then Char.ofNat 0xFFFD else Char.ofNat n
          match goJsonUnquoteChars rest2 with
          | some (inner, rem) => some (ch :: inner, rem)
          | none => none
        | _, _, _, _ => none
      | e :: rest2 =>
        match
          (if e = '"' then some '"'
           else if e = '\\' then some '\\'
           else if e = '/' then some '/'
           else if e = 'b' then some (Char.ofNat 8)
           else if e = 'f' then some (Char.ofNat 12)
           else if e = 'n' then some '\n'
           else if e = 'r' then some '\r'
           else if e = 't' then some '\t'
           else none) with
        | some ch =>
          match goJsonUnquoteChars rest2 with
          | some (inner, rem) => some (ch :: inner, rem)
          | none => none
        | none => none
      | [] => none
    else if c.toNat < 32 then none
    else
      match goJsonUnquoteChars rest with
      | some (inner, rem) => some (c :: inner, rem)
      | none => none

/-! ## Dataset metrics model (`internal/provider/model_dataset_metrics.go`) -/

/-- Embeds `datasetMetricsExtraCertification` (JSON tags `certified_by`,
`details`). -/
structure datasetMetricsExtraCertification where
  CertifiedBy : String
  CertificationDetails : String
deriving DecidableEq, Repr

/-- Embeds `datasetMetricsExtra` (JSON tag `certification`). -/
structure datasetMetricsExtra where
  Certification : datasetMetricsExtraCertification
deriving DecidableEq, Repr

/-- Embeds `json.Marshal` on a `datasetMetricsExtra` value: Go emits the
fields in struct order with the declared JSON tags and the default
HTML-escaping string encoder. -/
def goJsonMarshalExtra (e : datasetMetricsExtra) : String :=
  "\x7b\"certification\":\x7b\"certified_by\":" ++
    goJsonQuoteString e.Certification.CertifiedBy ++
    ",\"details\":" ++ goJsonQuoteString e.Certification.CertificationDetails ++
    "\x7d\x7d"

/-- Consumes an expected literal prefix. -/
def dropLit : List Char → List Char → Option (List Char)
  | [], s => some s
  | c :: lit, d :: s => if c = d then dropLit lit s else none
  | _ :: _, [] => none

/-- Reads one JSON string literal: an opening quote followed by a
Go-unquotable body. -/
def parseJsonString (s : List Char) : Option (List Char × List Char) :=
  match s with
  | '"' :: rest => goJsonUnquoteChars rest
  | _ => none

/-- Embeds `json.Unmarshal` into a `datasetMetricsExtra`, restricted to the
exact object shape `json.Marshal` of that same type produces (the repository
only parses `extra` payloads it wrote or that the service echoes back):
the two fields in declared order with arbitrary Go-escaped string values. -/
def goJsonUnmarshalExtra (s : String) : Option datasetMetricsExtra := do
  let s1 ← dropLit "\x7b\"certification\":\x7b\"certified_by\":".data s.data
  let (cb, s2) ← parseJsonString s1
  let s3 ← dropLit ",\"details\":".data s2
  let (det, s4) ← parseJsonString s3
  let s5 ← dropLit "\x7d\x7d".data s4
  if s5 = [] then some ⟨⟨String.mk cb, String.mk det⟩⟩ else none

/-- Embeds the provider's `datasetMetric` configuration model.  The
`currency` attribute is a terraform object with `symbol` and
`symbol_position` string attributes; its well-typed shape is carried as an
optional pair. -/
structure datasetMetric where
  Id : TInt64
  Currency : Option (TString × TString)
  D3format : TString
  Description : TString
  Expression : TString
  CertifiedBy : TString
  CertificationDetails : TString
  MetricName : TString
  VerboseName : TString
  WarningText : TString
deriving DecidableEq, Repr

/-- Embeds `datasetMetric.toExtra`: the empty string when both certification
fields are null, otherwise the JSON-packed certification object
(`json.Marshal` cannot fail on this shape, so the error branch is dead). -/
def datasetMetric.toExtra (model : datasetMetric) : Except String String :=
  if model.CertifiedBy.isNull ∧ model.CertificationDetails.isNull then .ok ""
  else
    .ok (goJsonMarshalExtra
      ⟨⟨model.CertifiedBy.valueString, model.CertificationDetails.valueString⟩⟩)

/-- Embeds `datasetMetric.parseCertification`, reading the server-held
`extra` JSON of one metric: an absent or empty `extra` leaves the model's
certification fields untouched; otherwise the JSON is parsed and each
non-empty certification sub-field is copied into the model. -/
def datasetMetric.parseCertification (model : datasetMetric)
    (extra : GoNullable String) : Except String datasetMetric :=
  if ¬extra.isNone ∧ extra.getD "" ≠ "" then
    match goJsonUnmarshalExtra (extra.getD "") with
    | none => .error ("failed to parse extra field for metric " ++
        model.MetricName.valueString)
    | some extraData =>
      let model :=
        if extraData.Certification.CertifiedBy ≠ "" then
          { model with CertifiedBy := some extraData.Certification.CertifiedBy }
        else model
      let model :=
        if extraData.Certification.CertificationDetails ≠ "" then
          { model with
              CertificationDetails := some extraData.Certification.CertificationDetails }
        else model
      .ok model
  else .ok model

/-! ## Role permission resolution (`internal/provider/model_role_permission.go`) -/

/-- Embeds the nested `Permission` reference of
`client.PermissionViewMenuApiGetList`. -/
structure PermissionRef where
  Name : String
deriving DecidableEq, Repr

/-- Embeds the nested `ViewMenu` reference of
`client.PermissionViewMenuApiGetList`. -/
structure ViewMenuRef where
  Name : String
deriving DecidableEq, Repr

/-- Embeds `client.SupersetPermissionApiGetList`
(= `PermissionViewMenuApiGetList`). -/
structure SupersetPermissionApiGetList where
  Id : Int
  Permission : PermissionRef
  ViewMenu : ViewMenuRef
deriving DecidableEq, Repr

/-- Embeds `client.SupersetRolePermissionApiGetList`
(= `RolePermissionListSchema`). -/
structure SupersetRolePermissionApiGetList where
  Id : Int
  PermissionName : String
  ViewMenuName : String
deriving DecidableEq, Repr

/-- Embeds the provider's `rolePermissionBaseModel`.  The `permissions`
attribute is a terraform list of objects with `permission_name` and
`view_menu_name` string attributes; its well-typed shape (the code panics on
anything else) is carried as a nullable list of string pairs. -/
structure rolePermissionBaseModel where
  RoleId : TInt64
  RoleName : TString
  Permissions : Option (List (String × String))
deriving DecidableEq, Repr

/-- The lookup into the Go map `sourcePermissionNameIdMap` keyed by
`Permission.Name + "_" + ViewMenu.Name` (later duplicates overwrite earlier
ones). -/
def sourcePermissionNameIdMap (sourcePermissions : List SupersetPermissionApiGetList)
    (key : String) : Option Int :=
  sourcePermissions.foldl
    (fun acc p => if p.Permission.Name ++ "_" ++ p.ViewMenu.Name = key then some p.Id else acc)
    none

/-- The declared-permission loop of `resolvePermissions`: appends a resolved
entry for each declared pair found in the source map and the joined name to
the not-found list otherwise. -/
def resolvePermissionsAux (sourcePermissions : List SupersetPermissionApiGetList) :
    List (String × String) →
      List SupersetRolePermissionApiGetList × List String
  | [] => ([], [])
  | p :: rest =>
    let fullPermissionName := p.1 ++ "_" ++ p.2
    let (permissions, notFoundPermissions) := resolvePermissionsAux sourcePermissions rest
    match sourcePermissionNameIdMap sourcePermissions fullPermissionName with
    | some id => (⟨id, p.1, p.2⟩ :: permissions, notFoundPermissions)
    | none => (permissions, fullPermissionName :: notFoundPermissions)

/-- Embeds `rolePermissionBaseModel.resolvePermissions`: resolves every
declared `(permission_name, view_menu_name)` pair against the full remote
permission catalog; a null declared list resolves to nothing. -/
def rolePermissionBaseModel.resolvePermissions (model : rolePermissionBaseModel)
    (sourcePermissions : List SupersetPermissionApiGetList) :
    List SupersetRolePermissionApiGetList × List String :=
  match model.Permissions with
  | none => ([], [])
  | some permissionList => resolvePermissionsAux sourcePermissions permissionList

/-- Embeds `client.SupersetRoleApiGetList`. -/
structure SupersetRoleApiGetList where
  Id : Int
  Name : String
deriving DecidableEq, Repr

/-- Embeds `client.SupersetGroupApiGetList` (= `GroupApiGetList`), restricted
to the fields the resolvers read. -/
structure SupersetGroupApiGetList where
  Id : Int
  Name : String
deriving DecidableEq, Repr

/-- Embeds the provider's `userBaseModel`.  The `role_names` and
`group_names` attributes are terraform sets of strings; each is carried as a
nullable list in the set's iteration order. -/
structure userBaseModel where
  Id : TInt64
  Username : TString
  Email : TString
  FirstName : TString
  LastName : TString
  Password : TString
  RoleNames : Option (List String)
  GroupNames : Option (List String)
  Active : TBool
deriving DecidableEq, Repr

/-- The lookup into the Go map `sourceRoleNameIdMap` keyed by the role name
(later duplicates overwrite earlier ones). -/
def sourceRoleNameIdMap (sourceRoles : List SupersetRoleApiGetList)
    (name : String) : Option Int :=
  sourceRoles.foldl (fun acc r => if r.Name = name then some r.Id else acc) none

/-- The declared-name loop shared by `resolveRoleIDsFromNames` and
`resolveGroupIDsFromNames`: appends the id of each name found in the source
map and the name itself to the not-found list otherwise. -/
def resolveIdsAux (lookup : String → Option Int) :
    List String → List Int × List String
  | [] => ([], [])
  | name :: rest =>
    let (ids, notFound) := resolveIdsAux lookup rest
    match lookup name with
    | some id => (id :: ids, notFound)
    | none => (ids, name :: notFound)

/-- Embeds `userBaseModel.resolveRoleIDsFromNames`. -/
def userBaseModel.resolveRoleIDsFromNames (model : userBaseModel)
    (sourceRoles : List SupersetRoleApiGetList) : List Int × List String :=
  match model.RoleNames with
  | none => ([], [])
  | some roleNamesList => resolveIdsAux (sourceRoleNameIdMap sourceRoles) roleNamesList

/-- The lookup into the Go map `sourceGroupNameIdMap` keyed by the group
name (later duplicates overwrite earlier ones). -/
def sourceGroupNameIdMap (sourceGroups : List SupersetGroupApiGetList)
    (name : String) : Option Int :=
  sourceGroups.foldl (fun acc g => if g.Name = name then some g.Id else acc) none

/-- Embeds `userBaseModel.resolveGroupIDsFromNames`. -/
def userBaseModel.resolveGroupIDsFromNames (model : userBaseModel)
    (sourceGroups : List SupersetGroupApiGetList) : List Int × List String :=
  match model.GroupNames with
  | none => ([], [])
  | some groupNamesList => resolveIdsAux (sourceGroupNameIdMap sourceGroups) groupNamesList

/-! ## Paginated list retrieval (`internal/client/client_wrapper.go`)

Each `List*` method loops from page 0, fetching `cw.pageSize` items per
page through the corresponding `_List*` call (embedded as the abstract
`fetch` oracle from page number to a page or an error), concatenating the
pages.  The Go loop is unbounded; the embedding carries a fuel argument and
returns `none` when the loop would still be running after `fuel` pages. -/

/-- The shared pagination loop: fetch page `pageNumber`, append it, stop
when `stop` holds of the fetched page, abort on a fetch error. -/
def goListPagedAux {α : Type} (fetch : Nat → Except String (List α))
    (stop : List α → Bool) :
    Nat → Nat → List α → Option (Except String (List α))
  | 0, _, _ => none
  | fuel + 1, pageNumber, acc =>
    match fetch pageNumber with
    | .error e => some (.error e)
    | .ok items =>
      let acc := acc ++ items
      if stop items then some (.ok acc)
      else goListPagedAux fetch stop fuel (pageNumber + 1) acc

/-- Embeds `ClientWrapper.ListUsers` (and, identically structured,
`ListRoles`, `ListGroups`, `ListDatabases`): stops after the first page
shorter than the page size. -/
def ClientWrapper.ListUsers {α : Type} (fetch : Nat → Except String (List α))
    (pageSize : Nat) (fuel : Nat) : Option (Except String (List α)) :=
  goListPagedAux fetch (fun users => users.length < pageSize) fuel 0 []

/-- Embeds `ClientWrapper.ListPermissions`: stops only after the first empty
page. -/
def ClientWrapper.ListPermissions {α : Type} (fetch : Nat → Except String (List α))
    (fuel : Nat) : Option (Except String (List α)) :=
  goListPagedAux fetch (fun permissions => permissions.length = 0) fuel 0 []

/-! ## Diagnostics and delete handlers -/

/-- Severity of one terraform diagnostic. -/
inductive DiagSeverity : Type where
  | warning : DiagSeverity
  | error : DiagSeverity
deriving DecidableEq, Repr

/-- One terraform diagnostic, carrying its severity and summary. -/
structure Diagnostic where
  severity : DiagSeverity
  summary : String
deriving DecidableEq, Repr

/-- Embeds `resp.Diagnostics.HasError()`. -/
def diagnosticsHasError (diags : List Diagnostic) : Bool :=
  diags.any (fun d => d.severity = DiagSeverity.error)

/-- Embeds `client.SupersetUserApiPut` (`PutApiV1SecurityUsersPk` body). -/
structure SupersetUserApiPut where
  Email : String
  FirstName : String
  LastName : String
  Password : String
  Active : Bool
  Groups : List Int
  Roles : List Int
deriving DecidableEq, Repr

/-- The struct literal `client.SupersetUserApiPut{Active: false, Groups:
[]int{}}` built in `UserResource.Delete`: every omitted field is the Go zero
value. -/
def userDeactivateFallbackBody : SupersetUserApiPut :=
  { Email := "", FirstName := "", LastName := "", Password := "",
    Active := false, Groups := [], Roles := [] }

/-- Outcome of the user resource's delete handler: the diagnostics produced
and the body of the fallback update call, when one was issued. -/
structure UserDeleteResult where
  diags : List Diagnostic
  fallbackBody : Option SupersetUserApiPut
deriving DecidableEq, Repr

/-- Embeds `UserResource.Delete` (`internal/provider/resource_user.go`):
the remote delete and the fallback update are the two remote calls the
handler makes, embedded as their abstract outcomes.  A delete failure is
recorded as a warning and followed by the deactivation fallback; only a
fallback failure adds an error diagnostic. -/
def UserResource.Delete (deleteUser : Except String Unit)
    (updateUser : SupersetUserApiPut → Except String Unit) : UserDeleteResult :=
  match deleteUser with
  | .ok _ => { diags := [], fallbackBody := none }
  | .error _ =>
    let warn : Diagnostic := { severity := .warning, summary := "Deletion Error" }
    match updateUser userDeactivateFallbackBody with
    | .ok _ =>
      { diags := [warn], fallbackBody := some userDeactivateFallbackBody }
    | .error _ =>
      { diags := [warn, { severity := .error, summary := "Client Error" }],
        fallbackBody := some userDeactivateFallbackBody }

/-- Embeds `client.DatasetMetricsPut`, restricted to the fields the metrics
resource fills. -/
structure DatasetMetricsPut where
  Id : Int
  MetricName : String
  Expression : String
  Description : GoNullable String
  VerboseName : GoNullable String
  D3format : GoNullable String
  WarningText : GoNullable String
  Currency : GoNullable (String × String)
  Extra : GoNullable String
deriving DecidableEq, Repr

/-- Embeds `client.DatasetRestApiPut`, restricted to the two sub-collection
fields the delete handlers fill; an omitted field is the Go zero value
(`nil` slice, embedded as `none`). -/
structure DatasetRestApiPut where
  Metrics : Option (List DatasetMetricsPut)
  Folders : Option (List Folder)

/-- Outcome of `client.FindDataset` as seen by a handler: found with an id,
a `NotFoundError` (`client.IsNotFound` true), or another failure. -/
inductive FindDatasetResult : Type where
  | found : Int → FindDatasetResult
  | notFound : FindDatasetResult
  | failed : String → FindDatasetResult
deriving DecidableEq, Repr

/-- Outcome of a sub-collection resource's delete handler: whether
`resp.State.RemoveResource` was called, the diagnostics produced, and the
dataset update body that was sent, when one was. -/
structure SubCollectionDeleteResult where
  removedFromState : Bool
  diags : List Diagnostic
  updateBody : Option DatasetRestApiPut

/-- Embeds `datasetMetricsResource.Delete`
(`internal/provider/resource_dataset_metrics.go`): a not-found parent
dataset removes the resource from state and succeeds; otherwise the dataset
is updated with the metrics collection emptied. -/
def datasetMetricsResource.Delete (find : FindDatasetResult)
    (updateDataset : DatasetRestApiPut → Except String Unit) :
    SubCollectionDeleteResult :=
  match find with
  | .notFound => { removedFromState := true, diags := [], updateBody := none }
  | .failed _ =>
    { removedFromState := false,
      diags := [{ severity := .error, summary := "Client Error" }],
      updateBody := none }
  | .found _ =>
    let putData : DatasetRestApiPut := { Metrics := some [], Folders := none }
    match updateDataset putData with
    | .ok _ => { removedFromState := false, diags := [], updateBody := some putData }
    | .error _ =>
      { removedFromState := false,
        diags := [{ severity := .error, summary := "Client Error" }],
        updateBody := some putData }

/-- Embeds `datasetFolderResource.Delete` (the dataset folder resource
file): a not-found parent dataset removes the resource from state and
succeeds; otherwise the dataset is updated with the folder collection
emptied. -/
def datasetFolderResource.Delete (find : FindDatasetResult)
    (updateDataset : DatasetRestApiPut → Except String Unit) :
    SubCollectionDeleteResult :=
  match find with
  | .notFound => { removedFromState := true, diags := [], updateBody := none }
  | .failed _ =>
    { removedFromState := false,
      diags := [{ severity := .error, summary := "Client Error" }],
      updateBody := none }
  | .found _ =>
    let putData : DatasetRestApiPut := { Metrics := none, Folders := some [] }
    match updateDataset putData with
    | .ok _ => { removedFromState := false, diags := [], updateBody := some putData }
    | .error _ =>
      { removedFromState := false,
        diags := [{ severity := .error, summary := "Client Error" }],
        updateBody := some putData }

/-! ## Claim theorems -/

/-- C9: when the user resource's remote delete call fails, the failure is
recorded as a warning (not an error) and a fallback update setting the user
inactive with cleared group memberships is issued; the handler ends with a
fatal error exactly when that fallback also fails, and with no error
diagnostic when the delete or the fallback succeeds. -/
theorem UserResource_Delete_spec (deleteUser : Except String Unit)
    (updateUser : SupersetUserApiPut → Except String Unit) :
    (deleteUser = .ok () →
      UserResource.Delete deleteUser updateUser = { diags := [], fallbackBody := none }) ∧
    (∀ e, deleteUser = .error e →
      UserResource.Delete deleteUser updateUser =
        { diags :=
            { severity := .warning, summary := "Deletion Error" } ::
              (match updateUser userDeactivateFallbackBody with
               | .ok _ => []
               | .error _ => [{ severity := .error, summary := "Client Error" }]),
          fallbackBody := some userDeactivateFallbackBody }) ∧
    (diagnosticsHasError (UserResource.Delete deleteUser updateUser).diags = true ↔
      (∃ e, deleteUser = .error e) ∧
        ∃ e, updateUser userDeactivateFallbackBody = .error e) ∧
    userDeactivateFallbackBody.Active = false ∧
    userDeactivateFallbackBody.Groups = [] := by
  refine ⟨?_, ?_, ?_, rfl, rfl⟩
  · rintro rfl
    rfl
  · rintro e rfl
    cases h : updateUser userDeactivateFallbackBody <;>
      simp [UserResource.Delete, h]
  · cases hd : deleteUser with
    | ok u =>
      cases u
      simp [UserResource.Delete, diagnosticsHasError]
    | error e =>
      cases h : updateUser userDeactivateFallbackBody <;>
        simp [UserResource.Delete, h, diagnosticsHasError]

/-- C9 witness: the theorem applied at a failing delete whose fallback
succeeds: one warning diagnostic, the deactivation body issued, no fatal
error. -/
theorem UserResource_Delete_spec_witness :
    UserResource.Delete (Except.error "cannot delete") (fun _ => Except.ok ()) =
      { diags := [{ severity := .warning, summary := "Deletion Error" }],
        fallbackBody := some userDeactivateFallbackBody } :=
  (UserResource_Delete_spec (Except.error "cannot delete")
    (fun _ => Except.ok ())).2.1 "cannot delete" rfl

/-- C10: the dataset-metrics and dataset-folder delete handlers treat a
not-found parent dataset as success, removing the resource from state with
no diagnostic at all; when the parent is found, the update body sent empties
exactly the relevant sub-collection field (and only that field is set). -/
theorem subcollection_Delete_spec (find : FindDatasetResult)
    (updateDataset : DatasetRestApiPut → Except String Unit) :
    (find = .notFound →
      (datasetMetricsResource.Delete find updateDataset).removedFromState = true ∧
      (datasetMetricsResource.Delete find updateDataset).diags = [] ∧
      (datasetFolderResource.Delete find updateDataset).removedFromState = true ∧
      (datasetFolderResource.Delete find updateDataset).diags = []) ∧
    (∀ id, find = .found id →
      (datasetMetricsResource.Delete find updateDataset).updateBody =
        some { Metrics := some [], Folders := none } ∧
      (datasetFolderResource.Delete find updateDataset).updateBody =
        some { Metrics := none, Folders := some [] }) := by
  constructor
  · rintro rfl
    exact ⟨rfl, rfl, rfl, rfl⟩
  · rintro id rfl
    cases h : updateDataset { Metrics := some [], Folders := none } <;>
      cases h' : updateDataset { Metrics := none, Folders := some [] } <;>
        simp [datasetMetricsResource.Delete, datasetFolderResource.Delete, h, h']

/-- C10 witness: the theorem applied at a not-found parent dataset. -/
theorem subcollection_Delete_spec_witness :
    (datasetMetricsResource.Delete .notFound (fun _ => Except.ok ())).removedFromState = true ∧
    (datasetMetricsResource.Delete .notFound (fun _ => Except.ok ())).diags = [] ∧
    (datasetFolderResource.Delete .notFound (fun _ => Except.ok ())).removedFromState = true ∧
    (datasetFolderResource.Delete .notFound (fun _ => Except.ok ())).diags = [] :=
  (subcollection_Delete_spec .notFound (fun _ => Except.ok ())).1 rfl

/-- The shared shape of the name-resolution loops: resolved ids in declared
order, unresolved names in declared order. -/
theorem resolveIdsAux_eq (lookup : String → Option Int) (l : List String) :
    resolveIdsAux lookup l =
      (l.filterMap lookup,
       l.filterMap (fun n => if lookup n = none then some n else none)) := by
  induction l with
  | nil => rfl
  | cons n rest ih =>
    simp only [resolveIdsAux, ih, List.filterMap_cons]
    cases h : lookup n <;> simp [h]

/-- The permission-resolution loop resolves and reports in declared order. -/
theorem resolvePermissionsAux_eq (src : List SupersetPermissionApiGetList)
    (l : List (String × String)) :
    resolvePermissionsAux src l =
      (l.filterMap (fun p =>
         (sourcePermissionNameIdMap src (p.1 ++ "_" ++ p.2)).map
           (fun id => SupersetRolePermissionApiGetList.mk id p.1 p.2)),
       l.filterMap (fun p =>
         if sourcePermissionNameIdMap src (p.1 ++ "_" ++ p.2) = none then
           some (p.1 ++ "_" ++ p.2)
         else none)) := by
  induction l with
  | nil => rfl
  | cons p rest ih =>
    simp only [resolvePermissionsAux, ih, List.filterMap_cons]
    cases h : sourcePermissionNameIdMap src (p.1 ++ "_" ++ p.2) <;> simp [h]

/-- The permission lookup table holds a key exactly when some source
permission's joined name equals it. -/
theorem sourcePermissionNameIdMap_isSome (src : List SupersetPermissionApiGetList)
    (key : String) :
    (sourcePermissionNameIdMap src key).isSome ↔
      ∃ p ∈ src, p.Permission.Name ++ "_" ++ p.ViewMenu.Name = key := by
  suffices h : ∀ acc : Option Int,
      (src.foldl
        (fun a p => if p.Permission.Name ++ "_" ++ p.ViewMenu.Name = key then some p.Id else a)
        acc).isSome ↔
        acc.isSome = true ∨ ∃ p ∈ src, p.Permission.Name ++ "_" ++ p.ViewMenu.Name = key by
    simpa [sourcePermissionNameIdMap] using h none
  induction src with
  | nil => simp
  | cons p rest ih =>
    intro acc
    simp only [List.foldl_cons]
    rw [ih]
    by_cases h : p.Permission.Name ++ "_" ++ p.ViewMenu.Name = key <;> simp [h]

/-- The role-name lookup table holds a name exactly when some source role
bears it. -/
theorem sourceRoleNameIdMap_isSome (src : List SupersetRoleApiGetList) (name : String) :
    (sourceRoleNameIdMap src name).isSome ↔ ∃ r ∈ src, r.Name = name := by
  suffices h : ∀ acc : Option Int,
      (src.foldl (fun a r => if r.Name = name then some r.Id else a) acc).isSome ↔
        acc.isSome = true ∨ ∃ r ∈ src, r.Name = name by
    simpa [sourceRoleNameIdMap] using h none
  induction src with
  | nil => simp
  | cons r rest ih =>
    intro acc
    simp only [List.foldl_cons]
    rw [ih]
    by_cases h : r.Name = name <;> simp [h]

/-- The group-name lookup table holds a name exactly when some source group
bears it. -/
theorem sourceGroupNameIdMap_isSome (src : List SupersetGroupApiGetList) (name : String) :
    (sourceGroupNameIdMap src name).isSome ↔ ∃ g ∈ src, g.Name = name := by
  suffices h : ∀ acc : Option Int,
      (src.foldl (fun a g => if g.Name = name then some g.Id else a) acc).isSome ↔
        acc.isSome = true ∨ ∃ g ∈ src, g.Name = name by
    simpa [sourceGroupNameIdMap] using h none
  induction src with
  | nil => simp
  | cons g rest ih =>
    intro acc
    simp only [List.foldl_cons]
    rw [ih]
    by_cases h : g.Name = name <;> simp [h]

/-- C7: every name-resolution call (permission pairs, role names, group
names) maps each declared name to exactly one output entry — a resolved id
when a source entity with that key exists, a not-found entry otherwise —
with ids in declared order and every unresolved name reported; the declared
set `A B C` against a source holding only `A` and `C` yields exactly their
ids and `notFound = [B]`. -/
theorem resolve_names_spec :
    (∀ (rid : TInt64) (rname : TString) (permissionList : List (String × String))
        (src : List SupersetPermissionApiGetList),
      (rolePermissionBaseModel.mk rid rname (some permissionList)).resolvePermissions src =
        (permissionList.filterMap (fun p =>
           (sourcePermissionNameIdMap src (p.1 ++ "_" ++ p.2)).map
             (fun id => SupersetRolePermissionApiGetList.mk id p.1 p.2)),
         permissionList.filterMap (fun p =>
           if sourcePermissionNameIdMap src (p.1 ++ "_" ++ p.2) = none then
             some (p.1 ++ "_" ++ p.2)
           else none))) ∧
    (∀ src key, (sourcePermissionNameIdMap src key).isSome ↔
       ∃ p ∈ src, p.Permission.Name ++ "_" ++ p.ViewMenu.Name = key) ∧
    (∀ (model : userBaseModel) (names : List String) (src : List SupersetRoleApiGetList),
      ({ model with RoleNames := some names } : userBaseModel).resolveRoleIDsFromNames src =
        (names.filterMap (sourceRoleNameIdMap src),
         names.filterMap (fun n => if sourceRoleNameIdMap src n = none then some n else none))) ∧
    (∀ src name, (sourceRoleNameIdMap src name).isSome ↔ ∃ r ∈ src, r.Name = name) ∧
    (∀ (model : userBaseModel) (names : List String) (src : List SupersetGroupApiGetList),
      ({ model with GroupNames := some names } : userBaseModel).resolveGroupIDsFromNames src =
        (names.filterMap (sourceGroupNameIdMap src),
         names.filterMap (fun n => if sourceGroupNameIdMap src n = none then some n else none))) ∧
    (∀ src name, (sourceGroupNameIdMap src name).isSome ↔ ∃ g ∈ src, g.Name = name) ∧
    (userBaseModel.mk none none none none none none (some ["A", "B", "C"]) none
        none).resolveRoleIDsFromNames [⟨1, "A"⟩, ⟨3, "C"⟩] = ([1, 3], ["B"]) := by
  refine ⟨?_, sourcePermissionNameIdMap_isSome, ?_, sourceRoleNameIdMap_isSome, ?_,
    sourceGroupNameIdMap_isSome, by decide⟩
  · intro rid rname permissionList src
    simpa [rolePermissionBaseModel.resolvePermissions] using
      resolvePermissionsAux_eq src permissionList
  · intro model names src
    simpa [userBaseModel.resolveRoleIDsFromNames] using
      resolveIdsAux_eq (sourceRoleNameIdMap src) names
  · intro model names src
    simpa [userBaseModel.resolveGroupIDsFromNames] using
      resolveIdsAux_eq (sourceGroupNameIdMap src) names

/-- The pagination loop concatenates the fetched pages in order: when pages
`p` through `k` all fetch successfully, no page before `k` satisfies the
stop predicate and page `k` does, the loop started at page `p` appends
exactly pages `p..k` to the accumulator. -/
theorem goListPagedAux_ok {α : Type} (fetch : Nat → Except String (List α))
    (stop : List α → Bool) (pages : Nat → List α) (k : Nat) :
    ∀ fuel p acc, (∀ i, p ≤ i → i ≤ k → fetch i = .ok (pages i)) →
      (∀ i, p ≤ i → i < k → stop (pages i) = false) →
      stop (pages k) = true → p ≤ k → k - p < fuel →
      goListPagedAux fetch stop fuel p acc =
        some (.ok (acc ++ ((List.range' p (k + 1 - p)).map pages).flatten)) := by
  intro fuel
  induction fuel with
  | zero =>
    intro p acc _ _ _ hpk hfuel
    omega
  | succ fuel ih =>
    intro p acc hok hstop hstopk hpk hfuel
    have hfp : fetch p = .ok (pages p) := hok p le_rfl hpk
    by_cases hp : p = k
    · subst hp
      have hrange : p + 1 - p = 1 := by omega
      simp [goListPagedAux, hfp, hstopk, hrange, List.range'_one]
    · have hlt : p < k := lt_of_le_of_ne hpk hp
      have hsp : stop (pages p) = false := hstop p le_rfl hlt
      have hrec := ih (p + 1) (acc ++ pages p)
        (fun i h1 h2 => hok i (by omega) h2)
        (fun i h1 h2 => hstop i (by omega) h2) hstopk (by omega) (by omega)
      have hrange : k + 1 - p = (k + 1 - (p + 1)) + 1 := by omega
      simp only [goListPagedAux, hfp, hsp, if_neg (by simp [hsp] : ¬stop (pages p) = true)]
      rw [hrec, hrange, List.range'_succ]
      simp [List.append_assoc]

/-- The pagination loop aborts with the first page-level error: when pages
`p` through `k - 1` fetch successfully without satisfying the stop
predicate and page `k`'s fetch fails, the loop started at page `p` returns
that error. -/
theorem goListPagedAux_error {α : Type} (fetch : Nat → Except String (List α))
    (stop : List α → Bool) (pages : Nat → List α) (k : Nat) (e : String) :
    ∀ fuel p acc,
      (∀ i, p ≤ i → i < k → fetch i = .ok (pages i) ∧ stop (pages i) = false) →
      fetch k = .error e → p ≤ k → k - p < fuel →
      goListPagedAux fetch stop fuel p acc = some (.error e) := by
  intro fuel
  induction fuel with
  | zero =>
    intro p acc _ _ hpk hfuel
    omega
  | succ fuel ih =>
    intro p acc hok herr hpk hfuel
    by_cases hp : p = k
    · subst hp
      simp [goListPagedAux, herr]
    · have hlt : p < k := lt_of_le_of_ne hpk hp
      obtain ⟨hfp, hsp⟩ := hok p le_rfl hlt
      have hrec := ih (p + 1) (acc ++ pages p)
        (fun i h1 h2 => hok i (by omega) h2) herr (by omega) (by omega)
      simp only [goListPagedAux, hfp, hsp, if_neg (by simp [hsp] : ¬stop (pages p) = true)]
      exact hrec

/-- C8: every paginated list retrieval fetches pages sequentially from page
0 and returns the pages' concatenation in order; the user/role/group/
database family stops after the first page shorter than the page size, the
permission retrieval stops only after the first empty page, and a
page-level error aborts the whole retrieval with that error. -/
theorem paginated_list_spec {α : Type} (fetch : Nat → Except String (List α))
    (pageSize fuel k : Nat) (pages : Nat → List α) :
    ((∀ i, i ≤ k → fetch i = .ok (pages i)) →
      (∀ i, i < k → ¬(pages i).length < pageSize) →
      (pages k).length < pageSize → k < fuel →
      ClientWrapper.ListUsers fetch pageSize fuel =
        some (.ok (((List.range (k + 1)).map pages).flatten))) ∧
    ((∀ i, i ≤ k → fetch i = .ok (pages i)) →
      (∀ i, i < k → (pages i).length ≠ 0) →
      (pages k).length = 0 → k < fuel →
      ClientWrapper.ListPermissions fetch fuel =
        some (.ok (((List.range (k + 1)).map pages).flatten))) ∧
    (∀ e, (∀ i, i < k → fetch i = .ok (pages i) ∧ ¬(pages i).length < pageSize) →
      fetch k = .error e → k < fuel →
      ClientWrapper.ListUsers fetch pageSize fuel = some (.error e)) ∧
    (∀ e, (∀ i, i < k → fetch i = .ok (pages i) ∧ (pages i).length ≠ 0) →
      fetch k = .error e → k < fuel →
      ClientWrapper.ListPermissions fetch fuel = some (.error e)) := by
  refine ⟨?_, ?_, ?_, ?_⟩
  · intro hok hlong hshort hfuel
    have h := goListPagedAux_ok fetch (fun users => users.length < pageSize) pages k
      fuel 0 [] (fun i _ h2 => hok i h2)
      (fun i _ h2 => by simpa using hlong i h2) (by simpa using hshort)
      (Nat.zero_le k) (by omega)
    simpa [ClientWrapper.ListUsers, List.range_eq_range'] using h
  · intro hok hfull hempty hfuel
    have h := goListPagedAux_ok fetch (fun permissions => permissions.length = 0) pages k
      fuel 0 [] (fun i _ h2 => hok i h2)
      (fun i _ h2 => by simpa using hfull i h2) (by simpa using hempty)
      (Nat.zero_le k) (by omega)
    simpa [ClientWrapper.ListPermissions, List.range_eq_range'] using h
  · intro e hok herr hfuel
    have h := goListPagedAux_error fetch (fun users => users.length < pageSize) pages k e
      fuel 0 [] (fun i _ h2 => ⟨(hok i h2).1, by simpa using (hok i h2).2⟩) herr
      (Nat.zero_le k) (by omega)
    simpa [ClientWrapper.ListUsers] using h
  · intro e hok herr hfuel
    have h := goListPagedAux_error fetch (fun permissions => permissions.length = 0) pages k e
      fuel 0 [] (fun i _ h2 => ⟨(hok i h2).1, by simpa using (hok i h2).2⟩) herr
      (Nat.zero_le k) (by omega)
    simpa [ClientWrapper.ListPermissions] using h

/-- C8 witness: two full pages of size 2 and a short third page concatenate
in order; the permission loop keeps going past a short non-empty page. -/
theorem paginated_list_spec_witness :
    ClientWrapper.ListUsers
        (fun i => if i = 0 then .ok [10, 20] else if i = 1 then .ok [30, 40] else .ok [50])
        2 9 = some (.ok ([10, 20, 30, 40, 50] : List Nat)) :=
  (paginated_list_spec
      (fun i => if i = 0 then .ok [10, 20] else if i = 1 then .ok [30, 40] else .ok [50])
      2 9 2
      (fun i => if i = 0 then [10, 20] else if i = 1 then [30, 40] else [50])).1
    (by intro i hi; interval_cases i <;> rfl)
    (by intro i hi; interval_cases i <;> decide) (by decide) (by decide)

/-- The column lookup table misses a name exactly when no server column
bears it. -/
theorem mapColumnNameToColumn_eq_none_iff (columns : List DatasetRestApiGetTableColumn)
    (name : String) :
    mapColumnNameToColumn columns name = none ↔ ∀ c ∈ columns, c.ColumnName ≠ name := by
  suffices h : ∀ acc : Option DatasetRestApiGetTableColumn,
      (columns.foldl (fun a c => if c.ColumnName = name then some c else a) acc = none ↔
        acc = none ∧ ∀ c ∈ columns, c.ColumnName ≠ name) by
    simpa [mapColumnNameToColumn] using h none
  induction columns with
  | nil => simp
  | cons c rest ih =>
    intro acc
    simp only [List.foldl_cons]
    rw [ih]
    by_cases h : c.ColumnName = name <;> simp [h]

/-- A hit in the column lookup table is a server column with the name. -/
theorem mapColumnNameToColumn_eq_some (columns : List DatasetRestApiGetTableColumn)
    (name : String) (c : DatasetRestApiGetTableColumn)
    (h : mapColumnNameToColumn columns name = some c) :
    c ∈ columns ∧ c.ColumnName = name := by
  suffices hgen : ∀ acc : Option DatasetRestApiGetTableColumn,
      columns.foldl (fun a x => if x.ColumnName = name then some x else a) acc = some c →
        acc = some c ∨ (c ∈ columns ∧ c.ColumnName = name) by
    rcases hgen none h with h' | h'
    · exact absurd h' (by simp)
    · exact h'
  clear h
  intro acc
  induction columns generalizing acc with
  | nil => intro h'; exact Or.inl h'
  | cons d rest ih =>
    intro h'
    simp only [List.foldl_cons] at h'
    rcases ih _ h' with h'' | h''
    · by_cases hd : d.ColumnName = name
      · rw [if_pos hd] at h''
        have hdc : d = c := Option.some.inj h''
        exact Or.inr ⟨by simp [← hdc], by rw [← hdc]; exact hd⟩
      · rw [if_neg hd] at h''
        exact Or.inl h''
    · exact Or.inr ⟨List.mem_cons_of_mem _ h''.1, h''.2⟩

/-- No matching name leaves the column fold's accumulator untouched. -/
theorem mapColumnNameToColumn_no_match (columns : List DatasetRestApiGetTableColumn)
    (name : String) (acc : Option DatasetRestApiGetTableColumn)
    (h : ∀ x ∈ columns, x.ColumnName ≠ name) :
    columns.foldl (fun a c => if c.ColumnName = name then some c else a) acc = acc := by
  induction columns generalizing acc with
  | nil => rfl
  | cons d rest ih =>
    simp only [List.foldl_cons]
    rw [if_neg (h d (by simp))]
    exact ih acc (fun x hx => h x (by simp [hx]))

/-- Under unique server column names, a member with the name is the lookup
table's hit. -/
theorem mapColumnNameToColumn_eq_some_of_mem (columns : List DatasetRestApiGetTableColumn)
    (name : String) (c : DatasetRestApiGetTableColumn)
    (hnd : (columns.map DatasetRestApiGetTableColumn.ColumnName).Nodup)
    (hc : c ∈ columns) (hname : c.ColumnName = name) :
    mapColumnNameToColumn columns name = some c := by
  induction columns with
  | nil => cases hc
  | cons d rest ih =>
    simp only [List.map_cons, List.nodup_cons] at hnd
    rcases List.mem_cons.mp hc with rfl | hcr
    · unfold mapColumnNameToColumn
      simp only [List.foldl_cons, if_pos hname]
      exact mapColumnNameToColumn_no_match rest name (some c)
        (fun x hx hxn => hnd.1 (hname ▸ hxn ▸ List.mem_map_of_mem _ hx))
    · have hdn : d.ColumnName ≠ name := by
        intro hdn
        exact hnd.1 (hdn ▸ hname ▸ (hname.symm ▸ List.mem_map_of_mem
          DatasetRestApiGetTableColumn.ColumnName hcr))
      unfold mapColumnNameToColumn
      simp only [List.foldl_cons, if_neg hdn]
      exact ih hnd.2 hcr

/-- C1 (amended): against server columns with unique names, the reconcile
maps each declared column in order; a declared column whose name matches a
server column always takes the server's id, and takes the server's type
exactly when the server type is non-null and non-empty (otherwise the
declared type is kept); a declared column matching no server column passes
through unchanged. -/
theorem resovleColumns_spec (model : datasetColumnsBaseModel)
    (columns : List DatasetRestApiGetTableColumn)
    (hnodup : (columns.map DatasetRestApiGetTableColumn.ColumnName).Nodup) :
    List.Forall₂ (fun col col' : datasetColumn =>
      (∀ c ∈ columns, c.ColumnName = col.ColumnName.valueString →
        col' = { col with
                 Id := some c.Id,
                 type_ := if ¬c.type_.isNone ∧ c.type_.getD "" ≠ "" then
                     some (c.type_.getD "")
                   else col.type_ }) ∧
      ((∀ c ∈ columns, c.ColumnName ≠ col.ColumnName.valueString) → col' = col))
      model.Columns (model.resovleColumns columns) := by
  unfold datasetColumnsBaseModel.resovleColumns
  generalize model.Columns = l
  induction l with
  | nil => constructor
  | cons col rest ih =>
    simp only [List.map_cons]
    refine List.Forall₂.cons ⟨?_, ?_⟩ ih
    · intro c hc hname
      have hsome := mapColumnNameToColumn_eq_some_of_mem columns
        col.ColumnName.valueString c hnodup hc hname
      rw [hsome]
      by_cases ht : ¬c.type_.isNone ∧ c.type_.getD "" ≠ ""
      · simp only [if_pos ht]
      · simp only [if_neg ht]
    · intro hnone
      rw [(mapColumnNameToColumn_eq_none_iff columns col.ColumnName.valueString).mpr hnone]

/-- C1 witness: the theorem applied to one declared column matched by a
server column with id 5 and a null type: the output keeps the declared type
and takes the server id. -/
theorem resovleColumns_spec_witness :
    List.Forall₂ (fun col col' : datasetColumn =>
      (∀ c ∈ [(⟨5, "c", none, none⟩ : DatasetRestApiGetTableColumn)],
        c.ColumnName = col.ColumnName.valueString →
        col' = { col with
                 Id := some c.Id,
                 type_ := if ¬c.type_.isNone ∧ c.type_.getD "" ≠ "" then
                     some (c.type_.getD "")
                   else col.type_ }) ∧
      ((∀ c ∈ [(⟨5, "c", none, none⟩ : DatasetRestApiGetTableColumn)],
        c.ColumnName ≠ col.ColumnName.valueString) → col' = col))
      [⟨some 1, none, some "c", none, none, none, none, none, none, none, some "BIGINT", none⟩]
      ((datasetColumnsBaseModel.mk none none
        [⟨some 1, none, some "c", none, none, none, none, none, none, none, some "BIGINT",
          none⟩]).resovleColumns [⟨5, "c", none, none⟩]) :=
  resovleColumns_spec
    (datasetColumnsBaseModel.mk none none
      [⟨some 1, none, some "c", none, none, none, none, none, none, none, some "BIGINT", none⟩])
    [⟨5, "c", none, none⟩] (by simp)

/-- C1 counterexample: a declared column with declared type `BIGINT` matched
by a server column whose type is null: the reconciled entry's type stays
`BIGINT` instead of becoming the server's null value, refuting that the
output type always equals the server column's value. -/
theorem resovleColumns_claim_counterexample :
    (datasetColumnsBaseModel.mk none none
        [⟨some 1, none, some "c", none, none, none, none, none, none, none, some "BIGINT",
          none⟩]).resovleColumns [⟨5, "c", none, none⟩] =
      [⟨some 5, none, some "c", none, none, none, none, none, none, none, some "BIGINT",
        none⟩] ∧
    (⟨5, "c", none, none⟩ : DatasetRestApiGetTableColumn).type_ = none ∧
    (some "BIGINT" : TString) ≠ none := by
  exact ⟨rfl, rfl, by decide⟩

/-- A declared uuid string the flatten accepts: absent, empty or all-zero
(a fresh uuid is drawn), or parseable by `uuid.Parse`. -/
def declaredUuidAccepted (u : TString) : Prop :=
  u.isNull ∨ u.valueString = "" ∨
    u.valueString = "00000000-0000-0000-0000-000000000000" ∨
    ∃ x, goUuidParse u.valueString = .ok x

/-- An `Except` bind succeeds exactly when both stages succeed. -/
theorem except_bind_ok {ε α β : Type} (x : Except ε α) (f : α → Except ε β) :
    (∃ r, (x >>= f) = .ok r) ↔ ∃ a, x = .ok a ∧ ∃ r, f a = .ok r := by
  cases x <;> simp [Bind.bind, Except.bind]

/-- An `Except` bind equals a given success exactly when both stages
succeed through it. -/
theorem except_bind_ok_hyp {ε α β : Type} {x : Except ε α} {f : α → Except ε β}
    {r : β} : (x >>= f) = .ok r ↔ ∃ a, x = .ok a ∧ f a = .ok r := by
  cases x <;> simp [Bind.bind, Except.bind]

/-- The wire node built for one declared child, given its resolved uuid. -/
def childWireFolder (c : datasetFolderChildModel) (u : GoUuid) : Folder :=
  Folder.mk c.Name.valueString c.type_.valueString
    (if ¬c.Description.isNull ∧ c.Description.valueString ≠ "" then
       some c.Description.valueString
     else none) u (some [])

/-- The wire node built for one declared root folder, given its resolved
uuid and flattened children. -/
def rootWireFolder (fm : datasetFolderModel) (u : GoUuid) (children : List Folder) : Folder :=
  Folder.mk fm.Name.valueString fm.type_.valueString
    (if ¬fm.Description.isNull ∧ fm.Description.valueString ≠ "" then
       some fm.Description.valueString
     else none) u (if children.length > 0 then some children else some [])

/-- The sentinel test of the flatten: a declared uuid that triggers a fresh
draw (null, empty or all-zero). -/
def uuidSentinel (u : TString) : Prop :=
  u.isNull ∨ u.valueString = "" ∨
    u.valueString = "00000000-0000-0000-0000-000000000000"

instance (u : TString) : Decidable (uuidSentinel u) := by
  unfold uuidSentinel
  infer_instance

/-- Child flatten step, sentinel uuid, rest succeeds: a fresh uuid is drawn
and the counter advances. -/
theorem childAux_cons_fresh_ok (supply : Nat → GoUuid) (c : datasetFolderChildModel)
    (rest : List datasetFolderChildModel) (k : Nat) (fs : List Folder) (k' : Nat)
    (h : uuidSentinel c.Uuid)
    (hrest : datasetFolderModel.toFoldersAux supply rest (k + 1) = .ok (fs, k')) :
    datasetFolderModel.toFoldersAux supply (c :: rest) k =
      .ok (childWireFolder c (supply k) :: fs, k') := by
  unfold uuidSentinel at h
  simp [datasetFolderModel.toFoldersAux, if_pos h, hrest, childWireFolder,
    Bind.bind, Except.bind, Pure.pure, Except.pure]

/-- Child flatten step, sentinel uuid, rest fails: the error propagates. -/
theorem childAux_cons_fresh_err (supply : Nat → GoUuid) (c : datasetFolderChildModel)
    (rest : List datasetFolderChildModel) (k : Nat) (e : String)
    (h : uuidSentinel c.Uuid)
    (hrest : datasetFolderModel.toFoldersAux supply rest (k + 1) = .error e) :
    datasetFolderModel.toFoldersAux supply (c :: rest) k = .error e := by
  unfold uuidSentinel at h
  simp [datasetFolderModel.toFoldersAux, if_pos h, hrest,
    Bind.bind, Except.bind, Pure.pure, Except.pure]

/-- Child flatten step, declared uuid parseable, rest succeeds: the parsed
uuid is reused and the counter does not advance. -/
theorem childAux_cons_parse_ok (supply : Nat → GoUuid) (c : datasetFolderChildModel)
    (rest : List datasetFolderChildModel) (k : Nat) (u : GoUuid) (fs : List Folder)
    (k' : Nat) (h : ¬uuidSentinel c.Uuid)
    (hp : goUuidParse c.Uuid.valueString = .ok u)
    (hrest : datasetFolderModel.toFoldersAux supply rest k = .ok (fs, k')) :
    datasetFolderModel.toFoldersAux supply (c :: rest) k =
      .ok (childWireFolder c u :: fs, k') := by
  unfold uuidSentinel at h
  simp [datasetFolderModel.toFoldersAux, if_neg h, hp, hrest, childWireFolder,
    Bind.bind, Except.bind, Pure.pure, Except.pure]

/-- Child flatten step, declared uuid parseable, rest fails. -/
theorem childAux_cons_parse_ok_err (supply : Nat → GoUuid) (c : datasetFolderChildModel)
    (rest : List datasetFolderChildModel) (k : Nat) (u : GoUuid) (e : String)
    (h : ¬uuidSentinel c.Uuid)
    (hp : goUuidParse c.Uuid.valueString = .ok u)
    (hrest : datasetFolderModel.toFoldersAux supply rest k = .error e) :
    datasetFolderModel.toFoldersAux supply (c :: rest) k = .error e := by
  unfold uuidSentinel at h
  simp [datasetFolderModel.toFoldersAux, if_neg h, hp, hrest,
    Bind.bind, Except.bind, Pure.pure, Except.pure]

/-- Child flatten step, malformed declared uuid: the flatten aborts with the
parse error. -/
theorem childAux_cons_parse_err (supply : Nat → GoUuid) (c : datasetFolderChildModel)
    (rest : List datasetFolderChildModel) (k : Nat) (e : String)
    (h : ¬uuidSentinel c.Uuid)
    (hp : goUuidParse c.Uuid.valueString = .error e) :
    datasetFolderModel.toFoldersAux supply (c :: rest) k = .error e := by
  unfold uuidSentinel at h
  simp [datasetFolderModel.toFoldersAux, if_neg h, hp,
    Bind.bind, Except.bind, Pure.pure, Except.pure]

/-- Root flatten step, sentinel uuid, children and rest succeed. -/
theorem baseAux_cons_fresh_ok (supply : Nat → GoUuid) (fm : datasetFolderModel)
    (rest : List datasetFolderModel) (k : Nat) (cs : List Folder) (k₁ : Nat)
    (fs : List Folder) (k' : Nat) (h : uuidSentinel fm.Uuid)
    (hch : datasetFolderModel.toFoldersAux supply fm.Children (k + 1) = .ok (cs, k₁))
    (hrest : datasetFolderBaseModel.toFoldersAux supply rest k₁ = .ok (fs, k')) :
    datasetFolderBaseModel.toFoldersAux supply (fm :: rest) k =
      .ok (rootWireFolder fm (supply k) cs :: fs, k') := by
  unfold uuidSentinel at h
  simp [datasetFolderBaseModel.toFoldersAux, datasetFolderModel.toFolders, if_pos h, hch,
    hrest, rootWireFolder, Bind.bind, Except.bind, Pure.pure, Except.pure]

/-- Root flatten step, sentinel uuid, children flatten fails. -/
theorem baseAux_cons_fresh_ch_err (supply : Nat → GoUuid) (fm : datasetFolderModel)
    (rest : List datasetFolderModel) (k : Nat) (e : String) (h : uuidSentinel fm.Uuid)
    (hch : datasetFolderModel.toFoldersAux supply fm.Children (k + 1) = .error e) :
    datasetFolderBaseModel.toFoldersAux supply (fm :: rest) k = .error e := by
  unfold uuidSentinel at h
  simp [datasetFolderBaseModel.toFoldersAux, datasetFolderModel.toFolders, if_pos h, hch,
    Bind.bind, Except.bind, Pure.pure, Except.pure]

/-- Root flatten step, sentinel uuid, children succeed, rest fails. -/
theorem baseAux_cons_fresh_rest_err (supply : Nat → GoUuid) (fm : datasetFolderModel)
    (rest : List datasetFolderModel) (k : Nat) (cs : List Folder) (k₁ : Nat) (e : String)
    (h : uuidSentinel fm.Uuid)
    (hch : datasetFolderModel.toFoldersAux supply fm.Children (k + 1) = .ok (cs, k₁))
    (hrest : datasetFolderBaseModel.toFoldersAux supply rest k₁ = .error e) :
    datasetFolderBaseModel.toFoldersAux supply (fm :: rest) k = .error e := by
  unfold uuidSentinel at h
  simp [datasetFolderBaseModel.toFoldersAux, datasetFolderModel.toFolders, if_pos h, hch,
    hrest, Bind.bind, Except.bind, Pure.pure, Except.pure]

/-- Root flatten step, declared uuid parseable, children and rest succeed:
the parsed uuid is reused and the counter does not advance for this node. -/
theorem baseAux_cons_parse_ok (supply : Nat → GoUuid) (fm : datasetFolderModel)
    (rest : List datasetFolderModel) (k : Nat) (u : GoUuid) (cs : List Folder)
    (k₁ : Nat) (fs : List Folder) (k' : Nat) (h : ¬uuidSentinel fm.Uuid)
    (hp : goUuidParse fm.Uuid.valueString = .ok u)
    (hch : datasetFolderModel.toFoldersAux supply fm.Children k = .ok (cs, k₁))
    (hrest : datasetFolderBaseModel.toFoldersAux supply rest k₁ = .ok (fs, k')) :
    datasetFolderBaseModel.toFoldersAux supply (fm :: rest) k =
      .ok (rootWireFolder fm u cs :: fs, k') := by
  unfold uuidSentinel at h
  simp [datasetFolderBaseModel.toFoldersAux, datasetFolderModel.toFolders, if_neg h, hp,
    hch, hrest, rootWireFolder, Bind.bind, Except.bind, Pure.pure, Except.pure]

/-- Root flatten step, declared uuid parseable, children flatten fails. -/
theorem baseAux_cons_parse_ch_err (supply : Nat → GoUuid) (fm : datasetFolderModel)
    (rest : List datasetFolderModel) (k : Nat) (u : GoUuid) (e : String)
    (h : ¬uuidSentinel fm.Uuid)
    (hp : goUuidParse fm.Uuid.valueString = .ok u)
    (hch : datasetFolderModel.toFoldersAux supply fm.Children k = .error e) :
    datasetFolderBaseModel.toFoldersAux supply (fm :: rest) k = .error e := by
  unfold uuidSentinel at h
  simp [datasetFolderBaseModel.toFoldersAux, datasetFolderModel.toFolders, if_neg h, hp,
    hch, Bind.bind, Except.bind, Pure.pure, Except.pure]

/-- Root flatten step, declared uuid parseable, children succeed, rest
fails. -/
theorem baseAux_cons_parse_rest_err (supply : Nat → GoUuid) (fm : datasetFolderModel)
    (rest : List datasetFolderModel) (k : Nat) (u : GoUuid) (cs : List Folder)
    (k₁ : Nat) (e : String) (h : ¬uuidSentinel fm.Uuid)
    (hp : goUuidParse fm.Uuid.valueString = .ok u)
    (hch : datasetFolderModel.toFoldersAux supply fm.Children k = .ok (cs, k₁))
    (hrest : datasetFolderBaseModel.toFoldersAux supply rest k₁ = .error e) :
    datasetFolderBaseModel.toFoldersAux supply (fm :: rest) k = .error e := by
  unfold uuidSentinel at h
  simp [datasetFolderBaseModel.toFoldersAux, datasetFolderModel.toFolders, if_neg h, hp,
    hch, hrest, Bind.bind, Except.bind, Pure.pure, Except.pure]

/-- Root flatten step, malformed declared uuid: the flatten aborts with the
parse error. -/
theorem baseAux_cons_parse_err (supply : Nat → GoUuid) (fm : datasetFolderModel)
    (rest : List datasetFolderModel) (k : Nat) (e : String)
    (h : ¬uuidSentinel fm.Uuid)
    (hp : goUuidParse fm.Uuid.valueString = .error e) :
    datasetFolderBaseModel.toFoldersAux supply (fm :: rest) k = .error e := by
  unfold uuidSentinel at h
  simp [datasetFolderBaseModel.toFoldersAux, datasetFolderModel.toFolders, if_neg h, hp,
    Bind.bind, Except.bind, Pure.pure, Except.pure]

/-- A sentinel uuid is accepted. -/
theorem declaredUuidAccepted_of_sentinel {u : TString} (h : uuidSentinel u) :
    declaredUuidAccepted u := by
  rcases h with h | h | h
  · exact Or.inl h
  · exact Or.inr (Or.inl h)
  · exact Or.inr (Or.inr (Or.inl h))

/-- The children flatten succeeds exactly when every declared child uuid is
accepted, at any supply position. -/
theorem childToFoldersAux_ok_iff (supply : Nat → GoUuid)
    (l : List datasetFolderChildModel) :
    ∀ k, (∃ r, datasetFolderModel.toFoldersAux supply l k = .ok r) ↔
      ∀ c ∈ l, declaredUuidAccepted c.Uuid := by
  induction l with
  | nil => intro k; simp [datasetFolderModel.toFoldersAux]
  | cons c rest ih =>
    intro k
    by_cases hc : uuidSentinel c.Uuid
    · constructor
      · rintro ⟨r, hr⟩ c' hmem
        rcases List.mem_cons.mp hmem with rfl | hmem'
        · exact declaredUuidAccepted_of_sentinel hc
        · cases haux : datasetFolderModel.toFoldersAux supply rest (k + 1) with
          | error e =>
            rw [childAux_cons_fresh_err supply c rest k e hc haux] at hr
            cases hr
          | ok p => exact ((ih (k + 1)).mp ⟨p, haux⟩) c' hmem'
      · intro hall
        obtain ⟨⟨fs, k'⟩, haux⟩ :=
          (ih (k + 1)).mpr (fun c' h' => hall c' (List.mem_cons_of_mem _ h'))
        exact ⟨_, childAux_cons_fresh_ok supply c rest k fs k' hc haux⟩
    · cases hp : goUuidParse c.Uuid.valueString with
      | ok u =>
        constructor
        · rintro ⟨r, hr⟩ c' hmem
          rcases List.mem_cons.mp hmem with rfl | hmem'
          · exact Or.inr (Or.inr (Or.inr ⟨u, hp⟩))
          · cases haux : datasetFolderModel.toFoldersAux supply rest k with
            | error e =>
              rw [childAux_cons_parse_ok_err supply c rest k u e hc hp haux] at hr
              cases hr
            | ok p => exact ((ih k).mp ⟨p, haux⟩) c' hmem'
        · intro hall
          obtain ⟨⟨fs, k'⟩, haux⟩ :=
            (ih k).mpr (fun c' h' => hall c' (List.mem_cons_of_mem _ h'))
          exact ⟨_, childAux_cons_parse_ok supply c rest k u fs k' hc hp haux⟩
      | error e =>
        constructor
        · rintro ⟨r, hr⟩
          rw [childAux_cons_parse_err supply c rest k e hc hp] at hr
          cases hr
        · intro hall
          exfalso
          rcases hall c (List.mem_cons_self _ _) with h | h | h | ⟨x, hx⟩
          · exact hc (Or.inl h)
          · exact hc (Or.inr (Or.inl h))
          · exact hc (Or.inr (Or.inr h))
          · rw [hp] at hx
            cases hx

/-- The whole declared-folder flatten succeeds exactly when every declared
folder and child uuid is accepted, at any supply position. -/
theorem baseToFoldersAux_ok_iff (supply : Nat → GoUuid)
    (l : List datasetFolderModel) :
    ∀ k, (∃ r, datasetFolderBaseModel.toFoldersAux supply l k = .ok r) ↔
      ∀ fm ∈ l, declaredUuidAccepted fm.Uuid ∧
        ∀ c ∈ fm.Children, declaredUuidAccepted c.Uuid := by
  induction l with
  | nil => intro k; simp [datasetFolderBaseModel.toFoldersAux]
  | cons fm rest ih =>
    intro k
    by_cases hf : uuidSentinel fm.Uuid
    · constructor
      · rintro ⟨r, hr⟩ fm' hmem
        rcases List.mem_cons.mp hmem with rfl | hmem'
        · refine ⟨declaredUuidAccepted_of_sentinel hf, ?_⟩
          cases hch : datasetFolderModel.toFoldersAux supply fm'.Children (k + 1) with
          | error e =>
            rw [baseAux_cons_fresh_ch_err supply fm' rest k e hf hch] at hr
            cases hr
          | ok p =>
            exact (childToFoldersAux_ok_iff supply fm'.Children (k + 1)).mp ⟨p, hch⟩
        · cases hch : datasetFolderModel.toFoldersAux supply fm.Children (k + 1) with
          | error e =>
            rw [baseAux_cons_fresh_ch_err supply fm rest k e hf hch] at hr
            cases hr
          | ok p =>
            cases haux : datasetFolderBaseModel.toFoldersAux supply rest p.2 with
            | error e =>
              rw [baseAux_cons_fresh_rest_err supply fm rest k p.1 p.2 e hf hch haux] at hr
              cases hr
            | ok q => exact ((ih p.2).mp ⟨q, haux⟩) fm' hmem'
      · intro hall
        obtain ⟨⟨cs, k₁⟩, hch⟩ :=
          (childToFoldersAux_ok_iff supply fm.Children (k + 1)).mpr
            (hall fm (List.mem_cons_self _ _)).2
        obtain ⟨⟨fs, k'⟩, haux⟩ :=
          (ih k₁).mpr (fun fm' h' => hall fm' (List.mem_cons_of_mem _ h'))
        exact ⟨_, baseAux_cons_fresh_ok supply fm rest k cs k₁ fs k' hf hch haux⟩
    · cases hp : goUuidParse fm.Uuid.valueString with
      | ok u =>
        constructor
        · rintro ⟨r, hr⟩ fm' hmem
          rcases List.mem_cons.mp hmem with rfl | hmem'
          · refine ⟨Or.inr (Or.inr (Or.inr ⟨u, hp⟩)), ?_⟩
            cases hch : datasetFolderModel.toFoldersAux supply fm'.Children k with
            | error e =>
              rw [baseAux_cons_parse_ch_err supply fm' rest k u e hf hp hch] at hr
              cases hr
            | ok p =>
              exact (childToFoldersAux_ok_iff supply fm'.Children k).mp ⟨p, hch⟩
          · cases hch : datasetFolderModel.toFoldersAux supply fm.Children k with
            | error e =>
              rw [baseAux_cons_parse_ch_err supply fm rest k u e hf hp hch] at hr
              cases hr
            | ok p =>
              cases haux : datasetFolderBaseModel.toFoldersAux supply rest p.2 with
              | error e =>
                rw [baseAux_cons_parse_rest_err supply fm rest k u p.1 p.2 e hf hp hch
                  haux] at hr
                cases hr
              | ok q => exact ((ih p.2).mp ⟨q, haux⟩) fm' hmem'
        · intro hall
          obtain ⟨⟨cs, k₁⟩, hch⟩ :=
            (childToFoldersAux_ok_iff supply fm.Children k).mpr
              (hall fm (List.mem_cons_self _ _)).2
          obtain ⟨⟨fs, k'⟩, haux⟩ :=
            (ih k₁).mpr (fun fm' h' => hall fm' (List.mem_cons_of_mem _ h'))
          exact ⟨_, baseAux_cons_parse_ok supply fm rest k u cs k₁ fs k' hf hp hch haux⟩
      | error e =>
        constructor
        · rintro ⟨r, hr⟩
          rw [baseAux_cons_parse_err supply fm rest k e hf hp] at hr
          cases hr
        · intro hall
          exfalso
          rcases (hall fm (List.mem_cons_self _ _)).1 with h | h | h | ⟨x, hx⟩
          · exact hf (Or.inl h)
          · exact hf (Or.inr (Or.inl h))
          · exact hf (Or.inr (Or.inr h))
          · rw [hp] at hx
            cases hx

/-- C2 (amended): the declared-folder flatten performs no root-type check at
all — a root folder of any type flattens — and it returns an error exactly
when some declared folder or child uuid is present, not the empty or
all-zero sentinel, and unparseable; root types are enforced by the schema
validator (`OneOf("folder")`), not by `toFolders`. -/
theorem toFolders_success_iff (model : datasetFolderBaseModel)
    (supply : Nat → GoUuid) (k : Nat) :
    (∃ r, model.toFolders supply k = .ok r) ↔
      ∀ fm ∈ model.Folders, declaredUuidAccepted fm.Uuid ∧
        ∀ c ∈ fm.Children, declaredUuidAccepted c.Uuid :=
  baseToFoldersAux_ok_iff supply model.Folders k

/-- C2 counterexample: a declared root folder of type `metric` — not
`folder` — flattens successfully into a wire folder list instead of
returning a structural error. -/
theorem toFolders_root_type_unchecked :
    (datasetFolderBaseModel.mk none none
        [datasetFolderModel.mk (some "f1") none (some "metric") [] none]).toFolders
      (fun _ => GoUuid.nil) 0 =
      .ok ([Folder.mk "f1" "metric" none GoUuid.nil (some [])], 1) := rfl

/-- C4: for every declared folder or child flattened to wire shape, a fresh
uuid from the random supply is drawn exactly when the declared uuid is
null, the empty string or the all-zero sentinel (the supply counter then
advances); in every other case the declared uuid string is parsed with
`uuid.Parse` and reused, and a malformed uuid string aborts the flatten
with the parse error. -/
theorem toFolders_uuid_rule (supply : Nat → GoUuid) (k : Nat) :
    (∀ (c : datasetFolderChildModel) rest fs k', uuidSentinel c.Uuid →
        datasetFolderModel.toFoldersAux supply rest (k + 1) = .ok (fs, k') →
        datasetFolderModel.toFoldersAux supply (c :: rest) k =
          .ok (childWireFolder c (supply k) :: fs, k')) ∧
    (∀ (c : datasetFolderChildModel) rest fs k' u, ¬uuidSentinel c.Uuid →
        goUuidParse c.Uuid.valueString = .ok u →
        datasetFolderModel.toFoldersAux supply rest k = .ok (fs, k') →
        datasetFolderModel.toFoldersAux supply (c :: rest) k =
          .ok (childWireFolder c u :: fs, k')) ∧
    (∀ (c : datasetFolderChildModel) rest e, ¬uuidSentinel c.Uuid →
        goUuidParse c.Uuid.valueString = .error e →
        datasetFolderModel.toFoldersAux supply (c :: rest) k = .error e) ∧
    (∀ (fm : datasetFolderModel) rest cs k₁ fs k', uuidSentinel fm.Uuid →
        datasetFolderModel.toFoldersAux supply fm.Children (k + 1) = .ok (cs, k₁) →
        datasetFolderBaseModel.toFoldersAux supply rest k₁ = .ok (fs, k') →
        datasetFolderBaseModel.toFoldersAux supply (fm :: rest) k =
          .ok (rootWireFolder fm (supply k) cs :: fs, k')) ∧
    (∀ (fm : datasetFolderModel) rest u cs k₁ fs k', ¬uuidSentinel fm.Uuid →
        goUuidParse fm.Uuid.valueString = .ok u →
        datasetFolderModel.toFoldersAux supply fm.Children k = .ok (cs, k₁) →
        datasetFolderBaseModel.toFoldersAux supply rest k₁ = .ok (fs, k') →
        datasetFolderBaseModel.toFoldersAux supply (fm :: rest) k =
          .ok (rootWireFolder fm u cs :: fs, k')) ∧
    (∀ (fm : datasetFolderModel) rest e, ¬uuidSentinel fm.Uuid →
        goUuidParse fm.Uuid.valueString = .error e →
        datasetFolderBaseModel.toFoldersAux supply (fm :: rest) k = .error e) :=
  ⟨fun c rest fs k' h hrest => childAux_cons_fresh_ok supply c rest k fs k' h hrest,
   fun c rest fs k' u h hp hrest => childAux_cons_parse_ok supply c rest k u fs k' h hp hrest,
   fun c rest e h hp => childAux_cons_parse_err supply c rest k e h hp,
   fun fm rest cs k₁ fs k' h hch hrest =>
     baseAux_cons_fresh_ok supply fm rest k cs k₁ fs k' h hch hrest,
   fun fm rest u cs k₁ fs k' h hp hch hrest =>
     baseAux_cons_parse_ok supply fm rest k u cs k₁ fs k' h hp hch hrest,
   fun fm rest e h hp => baseAux_cons_parse_err supply fm rest k e h hp⟩

/-- C4 witness: a child with a null uuid draws the supply's uuid; a child
with the malformed uuid string `zzz` aborts the flatten with the parse
error; a child with a well-formed uuid string reuses it. -/
theorem toFolders_uuid_rule_witness :
    datasetFolderModel.toFoldersAux (fun _ => GoUuid.mk (List.replicate 16 7))
        [⟨some "c1", none, some "column", none⟩] 0 =
      .ok ([childWireFolder ⟨some "c1", none, some "column", none⟩
        (GoUuid.mk (List.replicate 16 7))], 1) ∧
    datasetFolderModel.toFoldersAux (fun _ => GoUuid.mk (List.replicate 16 7))
        [⟨some "c1", none, some "column", some "zzz"⟩] 0 =
      .error "invalid UUID length: 3" ∧
    datasetFolderModel.toFoldersAux (fun _ => GoUuid.mk (List.replicate 16 7))
        [⟨some "c1", none, some "column",
          some "01010101-0101-0101-0101-010101010101"⟩] 0 =
      .ok ([childWireFolder
        ⟨some "c1", none, some "column", some "01010101-0101-0101-0101-010101010101"⟩
        (GoUuid.mk (List.replicate 16 1))], 0) :=
  ⟨(toFolders_uuid_rule (fun _ => GoUuid.mk (List.replicate 16 7)) 0).1 _ [] [] 1
      (by decide) rfl,
   (toFolders_uuid_rule (fun _ => GoUuid.mk (List.replicate 16 7)) 0).2.2.1 _ []
      "invalid UUID length: 3" (by decide) rfl,
   (toFolders_uuid_rule (fun _ => GoUuid.mk (List.replicate 16 7)) 0).2.1 _ [] [] 0
      (GoUuid.mk (List.replicate 16 1)) (by decide) rfl rfl⟩

/-- The error-propagating map succeeds exactly when every element maps
successfully. -/
theorem mapExceptList_ok_iff {α β : Type} (f : α → Except String β) (l : List α) :
    (∃ r, mapExceptList f l = .ok r) ↔ ∀ a ∈ l, ∃ b, f a = .ok b := by
  induction l with
  | nil => simp [mapExceptList]
  | cons a rest ih =>
    constructor
    · rintro ⟨r, hr⟩ x hx
      cases hfa : f a with
      | error e => simp [mapExceptList, hfa, Bind.bind, Except.bind] at hr
      | ok b =>
        rcases List.mem_cons.mp hx with rfl | hx'
        · exact ⟨b, hfa⟩
        · cases hrest : mapExceptList f rest with
          | error e =>
            simp [mapExceptList, hfa, hrest, Bind.bind, Except.bind] at hr
          | ok bs => exact (ih.mp ⟨bs, hrest⟩) x hx'
    · intro hall
      obtain ⟨b, hb⟩ := hall a (List.mem_cons_self _ _)
      obtain ⟨bs, hbs⟩ := ih.mpr (fun x hx => hall x (List.mem_cons_of_mem _ hx))
      exact ⟨b :: bs,
        by simp [mapExceptList, hb, hbs, Bind.bind, Except.bind, Pure.pure, Except.pure]⟩

/-- A successful error-propagating map maps the lists pointwise. -/
theorem mapExceptList_forall₂ {α β : Type} (f : α → Except String β) (l : List α)
    (r : List β) (h : mapExceptList f l = .ok r) :
    List.Forall₂ (fun a b => f a = .ok b) l r := by
  induction l generalizing r with
  | nil =>
    simp [mapExceptList] at h
    subst h
    constructor
  | cons a rest ih =>
    cases hfa : f a with
    | error e => simp [mapExceptList, hfa, Bind.bind, Except.bind] at h
    | ok b =>
      cases hrest : mapExceptList f rest with
      | error e => simp [mapExceptList, hfa, hrest, Bind.bind, Except.bind] at h
      | ok bs =>
        simp [mapExceptList, hfa, hrest, Bind.bind, Except.bind, Pure.pure,
          Except.pure] at h
        exact h ▸ List.Forall₂.cons hfa (ih bs hrest)

/-- A wire child maps back successfully exactly when its uuid is neither
empty nor all-zero. -/
theorem childFromWire_ok_iff (c : Folder) :
    (∃ b, datasetFolderChildModel.fromWire c = .ok b) ↔
      ¬(c.Uuid.toGoString = "" ∨
        c.Uuid.toGoString = "00000000-0000-0000-0000-000000000000") := by
  unfold datasetFolderChildModel.fromWire
  by_cases h : c.Uuid.toGoString = "" ∨
      c.Uuid.toGoString = "00000000-0000-0000-0000-000000000000" <;> simp [h]

/-- The folder-level `updateState` of a node already known to be of type
`folder` succeeds exactly when every direct child carries a usable uuid. -/
theorem folderModel_updateState_ok_iff (m : datasetFolderModel) (d : Folder)
    (htype : d.type_ = FolderTypeFolder) :
    (∃ m', m.updateState d = .ok m') ↔
      ∀ c ∈ d.Children.getD [], ¬(c.Uuid.toGoString = "" ∨
        c.Uuid.toGoString = "00000000-0000-0000-0000-000000000000") := by
  unfold datasetFolderModel.updateState
  rw [if_neg (by simp [htype])]
  by_cases hch : ¬d.Children.isNone ∧ (d.Children.getD []).length > 0
  · rw [if_pos hch]
    constructor
    · rintro ⟨m', hm'⟩ c hc
      cases hmap : mapExceptList datasetFolderChildModel.fromWire (d.Children.getD []) with
      | error e => simp [hmap, Bind.bind, Except.bind] at hm'
      | ok children =>
        exact (childFromWire_ok_iff c).mp
          (((mapExceptList_ok_iff _ _).mp ⟨children, hmap⟩) c hc)
    · intro hall
      obtain ⟨children, hmap⟩ := (mapExceptList_ok_iff _ _).mpr
        (fun c hc => (childFromWire_ok_iff c).mpr (hall c hc))
      exact ⟨_, except_bind_ok_hyp.mpr ⟨children, hmap, rfl⟩⟩
  · rw [if_neg hch]
    constructor
    · intro _ c hc
      exfalso
      rcases not_and_or.mp hch with h' | h'
      · have hnone : d.Children = none := by
          rcases hv : d.Children with _ | v
          · rfl
          · rw [hv] at h'
            simp at h'
        rw [hnone] at hc
        simp at hc
      · rw [Nat.not_lt, Nat.le_zero, List.length_eq_zero] at h'
        rw [h'] at hc
        cases hc
    · intro _
      exact ⟨_, rfl⟩

/-- On success, the folder-level `updateState` of a model with no prior
children produces one child model per direct wire child. -/
theorem folderModel_updateState_children_len (m : datasetFolderModel) (d : Folder)
    (m' : datasetFolderModel) (hm : m.Children = [])
    (h : m.updateState d = .ok m') :
    m'.Children.length = (d.Children.getD []).length := by
  unfold datasetFolderModel.updateState at h
  by_cases htype : d.type_ ≠ FolderTypeFolder
  · rw [if_pos htype] at h
    cases h
  · rw [if_neg htype] at h
    by_cases hch : ¬d.Children.isNone ∧ (d.Children.getD []).length > 0
    · rw [if_pos hch] at h
      cases hmap : mapExceptList datasetFolderChildModel.fromWire (d.Children.getD []) with
      | error e => simp [hmap, Bind.bind, Except.bind] at h
      | ok children =>
        simp only [hmap, Bind.bind, Except.bind, Pure.pure, Except.pure,
          Except.ok.injEq] at h
        rw [← h]
        exact ((mapExceptList_forall₂ _ _ _ hmap).length_eq).symm
    · rw [if_neg hch] at h
      simp only [Pure.pure, Except.pure, Except.ok.injEq] at h
      have hlen : (d.Children.getD []).length = 0 := by
        rcases not_and_or.mp hch with h' | h'
        · have hnone : d.Children = none := by
            rcases hv : d.Children with _ | v
            · rfl
            · rw [hv] at h'
              simp at h'
          rw [hnone]
          rfl
        · omega
      rw [hlen, ← h]
      by_cases hdesc : d.Description.isSome ∧ d.Description.getD "" ≠ "" <;>
        simp [hdesc, hm]

/-- A wire root folder maps back successfully exactly when its type is
`folder` and every direct child carries a usable uuid. -/
theorem fromWireRoot_ok_iff (f : Folder) :
    (∃ m, datasetFolderModel.fromWireRoot f = .ok m) ↔
      f.type_ = FolderTypeFolder ∧
        ∀ c ∈ f.Children.getD [], ¬(c.Uuid.toGoString = "" ∨
          c.Uuid.toGoString = "00000000-0000-0000-0000-000000000000") := by
  unfold datasetFolderModel.fromWireRoot
  by_cases htype : f.type_ ≠ FolderTypeFolder
  · rw [if_pos htype]
    constructor
    · rintro ⟨m, hm⟩
      cases hm
    · rintro ⟨h1, _⟩
      exact absurd h1 htype
  · rw [if_neg htype]
    rw [not_not] at htype
    constructor
    · rintro ⟨m, hm⟩
      refine ⟨htype, ?_⟩
      rw [except_bind_ok_hyp] at hm
      obtain ⟨m₁, hup, -⟩ := hm
      exact (folderModel_updateState_ok_iff _ f htype).mp ⟨m₁, hup⟩
    · rintro ⟨_, hall⟩
      rw [except_bind_ok]
      obtain ⟨m₁, hup⟩ := (folderModel_updateState_ok_iff _ f htype).mpr hall
      exact ⟨m₁, hup, _, rfl⟩

/-- On success, a wire root folder maps to one child model per direct wire
child. -/
theorem fromWireRoot_children_len (f : Folder) (m : datasetFolderModel)
    (h : datasetFolderModel.fromWireRoot f = .ok m) :
    m.Children.length = (f.Children.getD []).length := by
  unfold datasetFolderModel.fromWireRoot at h
  by_cases htype : f.type_ ≠ FolderTypeFolder
  · rw [if_pos htype] at h
    cases h
  · rw [if_neg htype] at h
    rw [except_bind_ok_hyp] at h
    obtain ⟨m₁, hup, hpure⟩ := h
    have hlen := folderModel_updateState_children_len _ f m₁ (by
      by_cases hdesc : f.Description.isSome ∧ f.Description.getD "" ≠ "" <;>
        simp [hdesc, emptyFolderModel]) hup
    have hm : m.Children = m₁.Children := by
      simp only [Pure.pure, Except.pure, Except.ok.injEq] at hpure
      rw [← hpure]
    rw [hm]
    exact hlen

/-- C3 (amended): mapping a wire folder tree back to configuration shape
fails exactly when some root entry's type is not `folder` or some direct
child carries an empty or all-zero uuid; a child of type `folder` inside a
root folder is NOT rejected — it is mapped as a plain child and its own
subtree is silently ignored — and on success the mapping produces one
configuration node per root and one per direct child. -/
theorem updateState_spec (model : datasetFolderBaseModel) (d : DatasetRestApiGet)
    (folders : List Folder) (h : d.Folders = some folders) :
    ((∃ m', model.updateState d = .ok m') ↔
      ∀ f ∈ folders, f.type_ = FolderTypeFolder ∧
        ∀ c ∈ f.Children.getD [], ¬(c.Uuid.toGoString = "" ∨
          c.Uuid.toGoString = "00000000-0000-0000-0000-000000000000")) ∧
    (∀ m', model.updateState d = .ok m' →
      List.Forall₂ (fun (f : Folder) (fm : datasetFolderModel) =>
        fm.Children.length = (f.Children.getD []).length) folders m'.Folders) := by
  unfold datasetFolderBaseModel.updateState
  rw [h]
  constructor
  · constructor
    · rintro ⟨m', hm'⟩ f hf
      rw [except_bind_ok_hyp] at hm'
      obtain ⟨fs, hmap, -⟩ := hm'
      exact (fromWireRoot_ok_iff f).mp
        (((mapExceptList_ok_iff _ _).mp ⟨fs, hmap⟩) f hf)
    · intro hall
      obtain ⟨fs, hmap⟩ := (mapExceptList_ok_iff _ _).mpr
        (fun f hf => (fromWireRoot_ok_iff f).mpr (hall f hf))
      exact ⟨_, except_bind_ok_hyp.mpr ⟨fs, hmap, rfl⟩⟩
  · intro m' hm'
    rw [except_bind_ok_hyp] at hm'
    obtain ⟨fs, hmap, hpure⟩ := hm'
    have hfold : m'.Folders = fs := by
      simp only [Pure.pure, Except.pure, Except.ok.injEq] at hpure
      rw [← hpure]
    rw [hfold]
    exact (mapExceptList_forall₂ _ _ _ hmap).imp
      (fun f fm hffm => fromWireRoot_children_len f fm hffm)

/-- C3 witness: the theorem applied to a wire tree with one root of type
`folder` and one column child with a non-zero uuid: the mapping succeeds. -/
theorem updateState_spec_witness :
    ∃ m', (datasetFolderBaseModel.mk none none []).updateState
      { Id := 1, TableName := "t",
        Folders := some [Folder.mk "A" "folder" none (GoUuid.mk (List.replicate 16 1))
          (some [Folder.mk "COL1" "column" none (GoUuid.mk (List.replicate 16 2)) none])],
        Columns := [], Metrics := [] } = .ok m' :=
  (updateState_spec (datasetFolderBaseModel.mk none none [])
    { Id := 1, TableName := "t",
      Folders := some [Folder.mk "A" "folder" none (GoUuid.mk (List.replicate 16 1))
        (some [Folder.mk "COL1" "column" none (GoUuid.mk (List.replicate 16 2)) none])],
      Columns := [], Metrics := [] } _ rfl).1.mpr (by decide)

/-- C3 counterexample: a wire tree with a folder nested inside a folder —
which the claim says must be rejected with a nesting error — is mapped back
successfully; the nested folder becomes a plain child and its own child is
silently dropped. -/
theorem updateState_nested_folder_accepted :
    (datasetFolderBaseModel.mk none none []).updateState
      { Id := 1, TableName := "t",
        Folders := some [Folder.mk "A" "folder" none (GoUuid.mk (List.replicate 16 1))
          (some [Folder.mk "B" "folder" none (GoUuid.mk (List.replicate 16 2))
            (some [Folder.mk "C" "column" none (GoUuid.mk (List.replicate 16 3)) none])])],
        Columns := [], Metrics := [] } =
      .ok (datasetFolderBaseModel.mk (some 1) (some "t")
        [datasetFolderModel.mk (some "A") none (some "folder")
          [datasetFolderChildModel.mk (some "B") none (some "folder")
            (some "02020202-0202-0202-0202-020202020202")]
          (some "01010101-0101-0101-0101-010101010101")]) := rfl

/-- Under unique keys, a member carrying the key is what `find?` returns. -/
theorem find?_key_eq_some {α : Type} (key : α → String) (l : List α)
    (hnd : (l.map key).Nodup) (a : α) (ha : a ∈ l) (name : String)
    (hk : key a = name) :
    l.find? (fun x => key x = name) = some a := by
  induction l with
  | nil => cases ha
  | cons b rest ih =>
    simp only [List.map_cons, List.nodup_cons] at hnd
    rcases List.mem_cons.mp ha with rfl | har
    · exact List.find?_cons_of_pos _ (by simp [hk])
    · have hb : ¬(key b = name) := by
        intro hbn
        have hmm : name ∈ rest.map key := by
          rw [← hk]
          exact List.mem_map_of_mem key har
        rw [← hbn] at hmm
        exact hnd.1 hmm
      rw [List.find?_cons_of_neg _ (by simp [hb])]
      exact ih hnd.2 har

/-- What `find?` returns is a member carrying the key. -/
theorem find?_key_mem {α : Type} (key : α → String) (l : List α) (name : String)
    (a : α) (h : l.find? (fun x => key x = name) = some a) :
    a ∈ l ∧ key a = name :=
  ⟨List.mem_of_find?_eq_some h, by simpa using List.find?_some h⟩

/-- C5: `resolveColumns` over well-typed folders (every root of type
`folder`, unique column and metric names, per the data-model invariants)
mutates only child uuids: a child of type `column` whose name matches a
dataset column carrying a specified uuid takes that uuid, symmetrically for
type `metric` against the metric list; a child matching no entry (or an
entry without a uuid) keeps its uuid, and every other field of every folder
and child, the list lengths and the order are untouched. -/
theorem resolveColumns_spec (model : datasetFolderBaseModel) (d : DatasetRestApiGet)
    (hft : ∀ fm ∈ model.Folders, fm.type_.valueString = FolderTypeFolder)
    (hcols : (d.Columns.map DatasetRestApiGetTableColumn.ColumnName).Nodup)
    (hmets : (d.Metrics.map DatasetRestApiGetSqlMetric.MetricName).Nodup) :
    (model.resolveColumns d).DatasetId = model.DatasetId ∧
    (model.resolveColumns d).DatasetName = model.DatasetName ∧
    List.Forall₂ (fun fm fm' : datasetFolderModel =>
      fm'.Name = fm.Name ∧ fm'.Description = fm.Description ∧
      fm'.type_ = fm.type_ ∧ fm'.Uuid = fm.Uuid ∧
      List.Forall₂ (fun c c' : datasetFolderChildModel =>
        c'.Name = c.Name ∧ c'.Description = c.Description ∧ c'.type_ = c.type_ ∧
        (c.type_.valueString = FolderTypeColumn →
          (∀ col ∈ d.Columns, col.ColumnName = c.Name.valueString →
            ∀ u, col.Uuid = some u → c'.Uuid = some u.toGoString) ∧
          ((¬∃ col ∈ d.Columns, col.ColumnName = c.Name.valueString ∧ col.Uuid.isSome) →
            c'.Uuid = c.Uuid)) ∧
        (c.type_.valueString = FolderTypeMetric →
          (∀ met ∈ d.Metrics, met.MetricName = c.Name.valueString →
            ∀ u, met.Uuid = some u → c'.Uuid = some u.toGoString) ∧
          ((¬∃ met ∈ d.Metrics, met.MetricName = c.Name.valueString ∧ met.Uuid.isSome) →
            c'.Uuid = c.Uuid)) ∧
        (c.type_.valueString ≠ FolderTypeColumn →
          c.type_.valueString ≠ FolderTypeMetric → c'.Uuid = c.Uuid))
        fm.Children fm'.Children)
      model.Folders (model.resolveColumns d).Folders := by
  refine ⟨rfl, rfl, ?_⟩
  unfold datasetFolderBaseModel.resolveColumns
  simp only []
  generalize hl : model.Folders = l at hft
  clear hl
  induction l with
  | nil => constructor
  | cons fm rest ih =>
    simp only [List.map_cons]
    refine List.Forall₂.cons ?_ (ih (fun x hx => hft x (List.mem_cons_of_mem _ hx)))
    rw [if_pos (hft fm (List.mem_cons_self _ _))]
    unfold datasetFolderModel.resolveColumns
    refine ⟨rfl, rfl, rfl, rfl, ?_⟩
    simp only []
    generalize fm.Children = cs
    induction cs with
    | nil => constructor
    | cons c crest cih =>
      simp only [List.map_cons]
      refine List.Forall₂.cons ?_ cih
      by_cases hcol : c.type_.valueString = FolderTypeColumn
      · rw [if_pos hcol]
        refine ⟨?_, ?_, ?_, ?_, ?_, ?_⟩
        · cases hf : findColumnByName d.Columns c.Name.valueString with
          | none => rfl
          | some col => by_cases hu : col.Uuid.isSome <;> simp [hu]
        · cases hf : findColumnByName d.Columns c.Name.valueString with
          | none => rfl
          | some col => by_cases hu : col.Uuid.isSome <;> simp [hu]
        · cases hf : findColumnByName d.Columns c.Name.valueString with
          | none => rfl
          | some col => by_cases hu : col.Uuid.isSome <;> simp [hu]
        · intro _
          constructor
          · intro col hmem hname u huuid
            have hfind : findColumnByName d.Columns c.Name.valueString = some col :=
              find?_key_eq_some DatasetRestApiGetTableColumn.ColumnName d.Columns
                hcols col hmem _ hname
            rw [hfind]
            simp [huuid]
          · intro hnone
            cases hf : findColumnByName d.Columns c.Name.valueString with
            | none => rfl
            | some col =>
              obtain ⟨hmem, hname⟩ :=
                find?_key_mem DatasetRestApiGetTableColumn.ColumnName d.Columns _ col hf
              have : ¬col.Uuid.isSome := fun hs => hnone ⟨col, hmem, hname, hs⟩
              simp [this]
        · intro hmet
          exact absurd (hcol ▸ hmet) (by simp [FolderTypeColumn, FolderTypeMetric])
        · intro hne _
          exact absurd hcol hne
      · rw [if_neg hcol]
        by_cases hmet : c.type_.valueString = FolderTypeMetric
        · rw [if_pos hmet]
          refine ⟨?_, ?_, ?_, ?_, ?_, ?_⟩
          · cases hf : findMetricByName d.Metrics c.Name.valueString with
            | none => rfl
            | some met => by_cases hu : met.Uuid.isSome <;> simp [hu]
          · cases hf : findMetricByName d.Metrics c.Name.valueString with
            | none => rfl
            | some met => by_cases hu : met.Uuid.isSome <;> simp [hu]
          · cases hf : findMetricByName d.Metrics c.Name.valueString with
            | none => rfl
            | some met => by_cases hu : met.Uuid.isSome <;> simp [hu]
          · intro hc
            exact absurd hc hcol
          · intro _
            constructor
            · intro met hmem hname u huuid
              have hfind : findMetricByName d.Metrics c.Name.valueString = some met :=
                find?_key_eq_some DatasetRestApiGetSqlMetric.MetricName d.Metrics
                  hmets met hmem _ hname
              rw [hfind]
              simp [huuid]
            · intro hnone
              cases hf : findMetricByName d.Metrics c.Name.valueString with
              | none => rfl
              | some met =>
                obtain ⟨hmem, hname⟩ :=
                  find?_key_mem DatasetRestApiGetSqlMetric.MetricName d.Metrics _ met hf
                have : ¬met.Uuid.isSome := fun hs => hnone ⟨met, hmem, hname, hs⟩
                simp [this]
          · intro _ hne
            exact absurd hmet hne
        · rw [if_neg hmet]
          exact ⟨rfl, rfl, rfl, fun hc => absurd hc hcol, fun hm => absurd hm hmet,
            fun _ _ => rfl⟩

/-- C5 witness: the theorem applied to one folder of type `folder` with a
column child against a dataset holding a matching uuid-carrying column. -/
theorem resolveColumns_spec_witness :
    ((datasetFolderBaseModel.mk (some 7) (some "t")
        [datasetFolderModel.mk (some "grp") none (some "folder")
          [datasetFolderChildModel.mk (some "COL1") none (some "column") none]
          none]).resolveColumns
      { Id := 1, TableName := "t", Folders := none,
        Columns := [⟨5, "COL1", none, some (GoUuid.mk (List.replicate 16 1))⟩],
        Metrics := [] }).DatasetId = some 7 :=
  (resolveColumns_spec
    (datasetFolderBaseModel.mk (some 7) (some "t")
      [datasetFolderModel.mk (some "grp") none (some "folder")
        [datasetFolderChildModel.mk (some "COL1") none (some "column") none] none])
    { Id := 1, TableName := "t", Folders := none,
      Columns := [⟨5, "COL1", none, some (GoUuid.mk (List.replicate 16 1))⟩],
      Metrics := [] } (by decide) (by decide) (by decide)).1

/-- Reading back a lowercase hex digit recovers its value. -/
theorem hexVal_hexDigitChar : ∀ n < 16, hexVal (hexDigitChar n) = some n := by decide

/-- The unquoter undoes a `\u00xx` escape of any byte-sized character. -/
theorem unquote_u00 (c : Char) (hc : c.toNat < 256) (tail : List Char) :
    goJsonUnquoteChars ('\\' :: 'u' :: '0' :: '0' ::
        hexDigitChar (c.toNat / 16) :: hexDigitChar (c.toNat % 16) :: tail) =
      (match goJsonUnquoteChars tail with
       | some (inner, rem) => some (c :: inner, rem)
       | none => none) := by
  have h3 := hexVal_hexDigitChar (c.toNat / 16) (by omega)
  have h4 := hexVal_hexDigitChar (c.toNat % 16) (by omega)
  have h0 : hexVal '0' = some 0 := by decide
  simp only [goJsonUnquoteChars, if_true]
  simp only [h0, h3, h4]
  have hn : ((0 * 16 + 0) * 16 + c.toNat / 16) * 16 + c.toNat % 16 = c.toNat := by omega
  have hsur : ¬(55296 ≤ c.toNat ∧ c.toNat < 57344) := by omega
  rw [hn, if_neg hsur, Char.ofNat_toNat, if_neg (show ¬('\\' = '"') from by decide)]

/-- The unquoter undoes the `\u202x` escapes of U+2028 and U+2029. -/
theorem unquote_u202x (c : Char) (hc : c.toNat = 0x2028 ∨ c.toNat = 0x2029)
    (tail : List Char) :
    goJsonUnquoteChars ('\\' :: 'u' :: '2' :: '0' :: '2' ::
        hexDigitChar (c.toNat % 16) :: tail) =
      (match goJsonUnquoteChars tail with
       | some (inner, rem) => some (c :: inner, rem)
       | none => none) := by
  have hofn := Char.ofNat_toNat c
  rcases hc with hc | hc
  · rw [hc]
    rw [hc] at hofn
    simp only [goJsonUnquoteChars, if_true]
    simp only [show (8232 : Nat) % 16 = 8 from by norm_num,
      show hexDigitChar 8 = '8' from by decide,
      show hexVal '2' = some 2 from by decide,
      show hexVal '0' = some 0 from by decide,
      show hexVal '8' = some 8 from by decide]
    rw [show ((((2 : Nat) * 16 + 0) * 16 + 2) * 16 + 8 : Nat) = (8232 : Nat) from by norm_num]
    have hns : ¬((55296 : Nat) ≤ 8232 ∧ (8232 : Nat) < 57344) := by decide
    rw [if_neg hns, hofn, if_neg (show ¬('\\' = '"') from by decide)]
  · rw [hc]
    rw [hc] at hofn
    simp only [goJsonUnquoteChars, if_true]
    simp only [show (8233 : Nat) % 16 = 9 from by norm_num,
      show hexDigitChar 9 = '9' from by decide,
      show hexVal '2' = some 2 from by decide,
      show hexVal '0' = some 0 from by decide,
      show hexVal '9' = some 9 from by decide]
    rw [show ((((2 : Nat) * 16 + 0) * 16 + 2) * 16 + 9 : Nat) = (8233 : Nat) from by norm_num]
    have hns : ¬((55296 : Nat) ≤ 8233 ∧ (8233 : Nat) < 57344) := by decide
    rw [if_neg hns, hofn, if_neg (show ¬('\\' = '"') from by decide)]

/-- The unquoter keeps an unescaped ordinary character. -/
theorem unquote_plain (c : Char) (tail : List Char) (h1 : ¬c = '"')
    (h2 : ¬c = '\\') (h3 : ¬c.toNat < 32) :
    goJsonUnquoteChars (c :: tail) =
      (match goJsonUnquoteChars tail with
       | some (inner, rem) => some (c :: inner, rem)
       | none => none) := by
  rw [goJsonUnquoteChars.eq_def]
  dsimp only
  rw [if_neg h1, if_neg h2, if_neg h3]

/-- The unquoter undoes the two-character `\"` escape. -/
theorem unquote_esc_quote (tail : List Char) :
    goJsonUnquoteChars ('\\' :: '"' :: tail) =
      (match goJsonUnquoteChars tail with
       | some (inner, rem) => some ('"' :: inner, rem)
       | none => none) := rfl

/-- The unquoter undoes the two-character `\\` escape. -/
theorem unquote_esc_backslash (tail : List Char) :
    goJsonUnquoteChars ('\\' :: '\\' :: tail) =
      (match goJsonUnquoteChars tail with
       | some (inner, rem) => some ('\\' :: inner, rem)
       | none => none) := rfl

/-- The unquoter undoes the two-character `\n` escape. -/
theorem unquote_esc_n (tail : List Char) :
    goJsonUnquoteChars ('\\' :: 'n' :: tail) =
      (match goJsonUnquoteChars tail with
       | some (inner, rem) => some ('\n' :: inner, rem)
       | none => none) := rfl

/-- The unquoter undoes the two-character `\r` escape. -/
theorem unquote_esc_r (tail : List Char) :
    goJsonUnquoteChars ('\\' :: 'r' :: tail) =
      (match goJsonUnquoteChars tail with
       | some (inner, rem) => some ('\r' :: inner, rem)
       | none => none) := rfl

/-- The unquoter undoes the two-character `\t` escape. -/
theorem unquote_esc_t (tail : List Char) :
    goJsonUnquoteChars ('\\' :: 't' :: tail) =
      (match goJsonUnquoteChars tail with
       | some (inner, rem) => some ('\t' :: inner, rem)
       | none => none) := rfl

/-- Go JSON string unquoting undoes Go JSON string quoting, leaving the
input past the closing quote untouched. -/
theorem unquote_quote (s rest : List Char) :
    goJsonUnquoteChars (goJsonQuoteChars s ++ '"' :: rest) = some (s, rest) := by
  induction s with
  | nil =>
    show goJsonUnquoteChars ('"' :: rest) = some ([], rest)
    rw [goJsonUnquoteChars.eq_def]
    dsimp only
    rw [if_pos rfl]
  | cons c cs ih =>
    have hstep : goJsonQuoteChars (c :: cs) ++ '"' :: rest =
        goJsonQuoteChar c ++ (goJsonQuoteChars cs ++ '"' :: rest) := by
      simp [goJsonQuoteChars]
    rw [hstep]
    unfold goJsonQuoteChar
    by_cases hq : c = '"'
    · rw [if_pos hq, hq]
      simp only [List.cons_append, List.nil_append]
      rw [unquote_esc_quote, ih]
    · rw [if_neg hq]
      by_cases hb : c = '\\'
      · rw [if_pos hb, hb]
        simp only [List.cons_append, List.nil_append]
        rw [unquote_esc_backslash, ih]
      · rw [if_neg hb]
        by_cases hn : c = '\n'
        · rw [if_pos hn, hn]
          simp only [List.cons_append, List.nil_append]
          rw [unquote_esc_n, ih]
        · rw [if_neg hn]
          by_cases hr : c = '\r'
          · rw [if_pos hr, hr]
            simp only [List.cons_append, List.nil_append]
            rw [unquote_esc_r, ih]
          · rw [if_neg hr]
            by_cases ht : c = '\t'
            · rw [if_pos ht, ht]
              simp only [List.cons_append, List.nil_append]
              rw [unquote_esc_t, ih]
            · rw [if_neg ht]
              by_cases hu : c = '<' ∨ c = '>' ∨ c = '&' ∨ c.toNat < 32
              · rw [if_pos hu]
                have hc256 : c.toNat < 256 := by
                  rcases hu with rfl | rfl | rfl | h
                  · decide
                  · decide
                  · decide
                  · omega
                simp only [List.cons_append, List.nil_append]
                rw [unquote_u00 c hc256, ih]
              · rw [if_neg hu]
                by_cases h2 : c.toNat = 0x2028 ∨ c.toNat = 0x2029
                · rw [if_pos h2]
                  simp only [List.cons_append, List.nil_append]
                  rw [unquote_u202x c h2, ih]
                · rw [if_neg h2]
                  simp only [List.cons_append, List.nil_append]
                  rw [unquote_plain c _ hq hb (by push_neg at hu; omega), ih]

/-- Consuming a literal prefix that is literally there succeeds. -/
theorem dropLit_append (lit s : List Char) : dropLit lit (lit ++ s) = some s := by
  induction lit with
  | nil => rfl
  | cons c rest ih => simp [dropLit, ih]

/-- Consuming a literal prefix off itself leaves nothing. -/
theorem dropLit_self (lit : List Char) : dropLit lit lit = some [] := by
  have h := dropLit_append lit []
  simpa using h

/-- Go JSON unmarshalling undoes Go JSON marshalling of the certification
object, for every pair of field values. -/
theorem unmarshal_marshal (e : datasetMetricsExtra) :
    goJsonUnmarshalExtra (goJsonMarshalExtra e) = some e := by
  obtain ⟨⟨cb, det⟩⟩ := e
  have hdata : (goJsonMarshalExtra ⟨⟨cb, det⟩⟩).data =
      "\x7b\"certification\":\x7b\"certified_by\":".data ++
        ('"' :: (goJsonQuoteChars cb.data ++ '"' ::
          (",\"details\":".data ++ ('"' :: (goJsonQuoteChars det.data ++ '"' ::
            "\x7d\x7d".data))))) := by
    simp [goJsonMarshalExtra, goJsonQuoteString, String.data_append, List.append_assoc]
  unfold goJsonUnmarshalExtra
  rw [hdata, dropLit_append]
  simp only [Option.bind_eq_bind, Option.some_bind]
  rw [show parseJsonString ('"' :: (goJsonQuoteChars cb.data ++ '"' ::
      (",\"details\":".data ++ ('"' :: (goJsonQuoteChars det.data ++ '"' ::
        "\x7d\x7d".data))))) = goJsonUnquoteChars (goJsonQuoteChars cb.data ++ '"' ::
      (",\"details\":".data ++ ('"' :: (goJsonQuoteChars det.data ++ '"' ::
        "\x7d\x7d".data)))) from rfl]
  rw [unquote_quote]
  simp only [Option.some_bind]
  rw [dropLit_append]
  simp only [Option.some_bind]
  rw [show parseJsonString ('"' :: (goJsonQuoteChars det.data ++ '"' ::
      "\x7d\x7d".data)) = goJsonUnquoteChars (goJsonQuoteChars det.data ++ '"' ::
      "\x7d\x7d".data) from rfl]
  rw [unquote_quote]
  simp only [Option.some_bind]
  rw [dropLit_self]
  simp only [Option.some_bind, if_true]

/-- The certification marshaller never yields the empty string. -/
theorem goJsonMarshalExtra_ne_empty (e : datasetMetricsExtra) :
    goJsonMarshalExtra e ≠ "" := by
  intro h
  have hrt := unmarshal_marshal e
  have h0 : goJsonUnmarshalExtra "" = none := by decide
  rw [h, h0] at hrt
  exact Option.noConfusion hrt

/-- C6 (amended): packing a metric's certification into the opaque `extra`
JSON string and parsing it back restores the original values whenever every
non-null certification field is non-empty and at least one is non-null;
a non-null empty-string field is lost (it parses back to null).  Packing a
metric whose certification fields are both null yields the empty `extra`,
and parsing an absent or empty `extra` leaves the model untouched. -/
theorem certification_pack_parse_spec :
    (∀ m : datasetMetric,
      ¬(m.CertifiedBy = none ∧ m.CertificationDetails = none) →
      m.CertifiedBy ≠ some "" → m.CertificationDetails ≠ some "" →
      ∃ s, m.toExtra = .ok s ∧ s ≠ "" ∧
        ∀ m0 : datasetMetric, m0.CertifiedBy = none → m0.CertificationDetails = none →
          m0.parseCertification (some s) =
            .ok { m0 with CertifiedBy := m.CertifiedBy,
                          CertificationDetails := m.CertificationDetails }) ∧
    (∀ m : datasetMetric, m.CertifiedBy = none → m.CertificationDetails = none →
      m.toExtra = .ok "") ∧
    (∀ (m : datasetMetric) (extra : GoNullable String),
      extra = none ∨ extra = some "" → m.parseCertification extra = .ok m) := by
  refine ⟨?_, ?_, ?_⟩
  · intro m hnull h1 h2
    cases hcb : m.CertifiedBy with
    | none =>
      cases hdet : m.CertificationDetails with
      | none => exact absurd ⟨hcb, hdet⟩ hnull
      | some detv =>
        have hdne : detv ≠ "" := by
          rintro rfl
          exact h2 hdet
        have hne := goJsonMarshalExtra_ne_empty ⟨⟨"", detv⟩⟩
        refine ⟨goJsonMarshalExtra ⟨⟨"", detv⟩⟩, ?_, hne, ?_⟩
        · simp [datasetMetric.toExtra, TString.isNull, hcb, hdet, TString.valueString]
        · intro m0 h0cb h0det
          obtain ⟨i, cur, d3, desc, expr, mcb0, mcd0, mn, vn, wt⟩ := m0
          simp only at h0cb h0det
          subst h0cb
          subst h0det
          simp [datasetMetric.parseCertification, unmarshal_marshal, hne, hdne]
    | some cbv =>
      have hcne : cbv ≠ "" := by
        rintro rfl
        exact h1 hcb
      cases hdet : m.CertificationDetails with
      | none =>
        have hne := goJsonMarshalExtra_ne_empty ⟨⟨cbv, ""⟩⟩
        refine ⟨goJsonMarshalExtra ⟨⟨cbv, ""⟩⟩, ?_, hne, ?_⟩
        · simp [datasetMetric.toExtra, TString.isNull, hcb, hdet, TString.valueString]
        · intro m0 h0cb h0det
          obtain ⟨i, cur, d3, desc, expr, mcb0, mcd0, mn, vn, wt⟩ := m0
          simp only at h0cb h0det
          subst h0cb
          subst h0det
          simp [datasetMetric.parseCertification, unmarshal_marshal, hne, hcne]
      | some detv =>
        have hdne : detv ≠ "" := by
          rintro rfl
          exact h2 hdet
        have hne := goJsonMarshalExtra_ne_empty ⟨⟨cbv, detv⟩⟩
        refine ⟨goJsonMarshalExtra ⟨⟨cbv, detv⟩⟩, ?_, hne, ?_⟩
        · simp [datasetMetric.toExtra, TString.isNull, hcb, hdet, TString.valueString]
        · intro m0 h0cb h0det
          obtain ⟨i, cur, d3, desc, expr, mcb0, mcd0, mn, vn, wt⟩ := m0
          simp only at h0cb h0det
          subst h0cb
          subst h0det
          simp [datasetMetric.parseCertification, unmarshal_marshal, hne, hcne, hdne]
  · intro m hcb hdet
    simp [datasetMetric.toExtra, TString.isNull, hcb, hdet]
  · intro m extra h
    rcases h with rfl | rfl <;> simp [datasetMetric.parseCertification]

/-- C6 witness: the theorem applied to a metric certified by `team` with
null details: the packed `extra` is non-empty and parses back into a fresh
model as exactly `certified_by = team`, details still null. -/
theorem certification_pack_parse_spec_witness :
    ∃ s, (datasetMetric.mk none none none none none (some "team") none (some "m1") none
        none).toExtra = .ok s ∧ s ≠ "" ∧
      (datasetMetric.mk none none none none none none none none none
        none).parseCertification (some s) =
        .ok (datasetMetric.mk none none none none none (some "team") none none none
          none) := by
  obtain ⟨s, h1, h2, h3⟩ := certification_pack_parse_spec.1
    (datasetMetric.mk none none none none none (some "team") none (some "m1") none none)
    (by simp) (by simp) (by simp)
  exact ⟨s, h1, h2, h3 _ rfl rfl⟩

/-- C6 counterexample: a metric with `certified_by = a` and a NON-NULL but
empty `certification_details`: packing then parsing yields null details,
not the original empty string, refuting the round trip for every metric
with at least one non-empty certification field. -/
theorem certification_roundtrip_counterexample :
    (datasetMetric.mk none none none none none (some "a") (some "") none none
        none).toExtra =
      .ok "\x7b\"certification\":\x7b\"certified_by\":\"a\",\"details\":\"\"\x7d\x7d" ∧
    (datasetMetric.mk none none none none none none none none none
        none).parseCertification
      (some "\x7b\"certification\":\x7b\"certified_by\":\"a\",\"details\":\"\"\x7d\x7d") =
      .ok (datasetMetric.mk none none none none none (some "a") none none none none) ∧
    (some "" : TString) ≠ none := by
  refine ⟨rfl, rfl, by decide⟩

end Superset
